import Mathlib

/-!
# fast-chroot: mount / chroot / unmount lifecycle

A shallow embedding of `src/main.go` and the properties of its lifecycle.

* The program's own functions (`main`, `fatalf`, `printHelp`, `mountEssentials`,
  `setupResolvConf`, `checkMountpoint`, `runChroot`, `umountEssentials`) are
  translated statement by statement into the `Prog` monad below: a piece of
  the program runs on a file system and gives how it ended (it returned, or
  the process is gone through `os.Exit`), the file system it left, and the log
  of what it did.
* Everything the program calls but does not define is the environment:
  - the `os` and `io` calls act on a model of a POSIX file system (`FS`):
    directories, regular files and symbolic links by canonical path, with the
    path resolution of path_resolution(7) (`walk`): `.`, `..`, repeated and
    trailing slashes, links in the middle of a path and at its end, and the
    limit of 40 links.  The process runs as root, so permissions do not
    enter; read-only file systems, full disks and I/O errors are not
    modelled;
  - the external commands (`mount`, `chroot`, `umount`) are an oracle: for
    each command line `Env.cmd` says whether it succeeds, and `Env.effect` what
    it does to the file system as the process sees it (a bind mount shows
    another directory below its mount point, an unmount takes that away, the
    command run by `chroot` does whatever it does).  The file system is the
    tree of names the process sees, every entry known by one path: an entry
    seen at two paths (a hard link, a bind mount made before the run) is not
    modelled;
  - `flag.Parse` has run: the model starts from the parsed command line
    (`Opts`).
-/

deriving instance DecidableEq for Except

namespace FastChroot

/-! ## Environment: a POSIX file-system model -/

/-- A canonical absolute path: the names from the root down, no `.`/`..`, no
symbolic link left to follow.  `[]` is the root directory. -/
abbrev Path := List String

/-- File content. -/
abbrev Bytes := List UInt8

/-- The error numbers the model distinguishes. -/
inductive Errno where
  | ENOENT | EEXIST | ENOTDIR | EISDIR | ELOOP | ENOTEMPTY | EBUSY
  deriving DecidableEq, Repr

/-- The text `strerror` gives (what Go prints for a `syscall.Errno`). -/
def Errno.text : Errno → String
  | .ENOENT => "no such file or directory"
  | .EEXIST => "file exists"
  | .ENOTDIR => "not a directory"
  | .EISDIR => "is a directory"
  | .ELOOP => "too many levels of symbolic links"
  | .ENOTEMPTY => "directory not empty"
  | .EBUSY => "device or resource busy"

/-- What a directory entry is. -/
inductive Node where
  | dir
  | file (content : Bytes)
  | link (target : String)
  deriving DecidableEq, Repr

/-- A file system: the entries below the root, by canonical path.  The first
binding of a path is the live one. -/
abbrev FS := List (Path × Node)

/-- The entry at a canonical path; the root always is a directory. -/
def FS.get (fs : FS) (p : Path) : Option Node :=
  if p = [] then some Node.dir else fs.lookup p

/-- Drop every binding of a path. -/
def FS.erase (fs : FS) (p : Path) : FS := fs.filter (fun e => e.1 ≠ p)

/-- Bind a path to an entry, replacing what was there. -/
def FS.set (fs : FS) (p : Path) (n : Node) : FS := (p, n) :: fs.erase p

/-- Whether some entry lies directly or indirectly below `p`. -/
def FS.hasChild (fs : FS) (p : Path) : Bool :=
  fs.any (fun e => decide (p.length < e.1.length) && decide (e.1.take p.length = p))

/-- Split at every `/`: `"/a//b"` gives `["", "a", "", "b"]`; the empty string
gives one empty component. -/
def splitSlash : List Char → List (List Char)
  | [] => [[]]
  | c :: cs =>
    if c = '/' then [] :: splitSlash cs
    else
      match splitSlash cs with
      | [] => [[c]]
      | h :: t => (c :: h) :: t

/-- The components of a path string. -/
def comps (s : String) : List String := (splitSlash s.data).map String.mk

/-- Whether a path string is absolute. -/
def isAbs (s : String) : Bool := s.data.head? = some '/'

/-- One stretch of path resolution: up to the end, an error, or the next
symbolic link to follow. -/
inductive Seg where
  | done (p : Path)
  | follow (base : Path) (rest : List String)
  | fail (e : Errno)
  deriving DecidableEq, Repr

/-- Walk the components `rest` from the directory `cur` until the end or the
first symbolic link to follow (path_resolution(7)).  Empty components and `.`
are skipped, `..` goes to the parent (the root is its own parent), every
component but the last must be a directory or a link to one, a link in the
last place is followed only when `followLast`, and a last component that does
not exist is returned as such (its parent exists). -/
def walkSeg (fs : FS) (followLast : Bool) : Path → List String → Seg
  | cur, [] => Seg.done cur
  | cur, name :: rest =>
    if name = "" ∨ name = "." then walkSeg fs followLast cur rest
    else if name = ".." then walkSeg fs followLast cur.dropLast rest
    else
      match fs.get (cur ++ [name]) with
      | none => if rest = [] then Seg.done (cur ++ [name]) else Seg.fail Errno.ENOENT
      | some Node.dir => walkSeg fs followLast (cur ++ [name]) rest
      | some (Node.file _) =>
        if rest = [] then Seg.done (cur ++ [name]) else Seg.fail Errno.ENOTDIR
      | some (Node.link t) =>
        if rest = [] ∧ followLast = false then Seg.done (cur ++ [name])
        else if t = "" then Seg.fail Errno.ENOENT
        else Seg.follow (if isAbs t then [] else cur) (comps t ++ rest)

/-- Path resolution with a budget of `n` symbolic links to follow; gives the
budget left and the canonical path reached.  Running out of budget is
`ELOOP`. -/
def walk (fs : FS) (followLast : Bool) : Nat → Path → List String → Except Errno (Nat × Path)
  | 0, cur, rest =>
    match walkSeg fs followLast cur rest with
    | Seg.done p => Except.ok (0, p)
    | Seg.fail e => Except.error e
    | Seg.follow _ _ => Except.error Errno.ELOOP
  | n + 1, cur, rest =>
    match walkSeg fs followLast cur rest with
    | Seg.done p => Except.ok (n + 1, p)
    | Seg.fail e => Except.error e
    | Seg.follow base rest1 => walk fs followLast n base rest1

/-- The kernel follows at most 40 symbolic links in one resolution. -/
def maxSymlinks : Nat := 40

/-- Resolve a path string from the working directory `cwd`. -/
def resolve (fs : FS) (cwd : Path) (followLast : Bool) (path : String) : Except Errno Path :=
  if path = "" then Except.error Errno.ENOENT
  else
    match walk fs followLast maxSymlinks (if isAbs path then [] else cwd) (comps path) with
    | Except.ok r => Except.ok r.2
    | Except.error e => Except.error e

/-- The entry `stat(2)` sees: the last symbolic link is followed. -/
def stat (fs : FS) (cwd : Path) (path : String) : Except Errno Node :=
  match resolve fs cwd true path with
  | Except.error e => Except.error e
  | Except.ok p =>
    match fs.get p with
    | none => Except.error Errno.ENOENT
    | some n => Except.ok n

/-- The entry `lstat(2)` sees: the last symbolic link is not followed. -/
def lstat (fs : FS) (cwd : Path) (path : String) : Except Errno Node :=
  match resolve fs cwd false path with
  | Except.error e => Except.error e
  | Except.ok p =>
    match fs.get p with
    | none => Except.error Errno.ENOENT
    | some n => Except.ok n

/-- An error of a Go `os` call: `op path: text`. -/
structure PathError where
  op : String
  path : String
  err : Errno
  deriving DecidableEq, Repr

/-- What `%v` prints for a `*PathError`. -/
def PathError.text (e : PathError) : String :=
  e.op ++ " " ++ e.path ++ ": " ++ e.err.text

/-- A path string without its trailing slashes. -/
def stripSlashes (s : String) : String :=
  String.mk (s.data.reverse.dropWhile (fun c => c = '/')).reverse

/-- The entry `mkdir(2)` makes: the path (trailing slashes aside) must not
exist, not even as a dangling link, and its parent must. -/
def mkdir (fs : FS) (cwd : Path) (path : String) : Except Errno FS :=
  if path ≠ "" ∧ stripSlashes path = "" then Except.error Errno.EEXIST
  else
    match resolve fs cwd false (stripSlashes path) with
    | Except.error e => Except.error e
    | Except.ok p =>
      match fs.get p with
      | some _ => Except.error Errno.EEXIST
      | none => Except.ok (fs.set p Node.dir)

/-- The parent `os.MkdirAll` recurses to: the path up to and including the
separator before its last element; empty when there is none. -/
def parentOf (path : String) : String :=
  String.mk
    ((path.data.reverse.dropWhile (fun c => c = '/')).dropWhile (fun c => c ≠ '/')).reverse

/-- The recursion of `os.MkdirAll`, on a counter that a path of `n` bytes never
uses up (every parent is shorter). -/
def mkdirAllAux (cwd : Path) : Nat → String → FS → Except PathError FS
  | 0, path, _ => Except.error ⟨"mkdir", path, Errno.ELOOP⟩
  | fuel + 1, path, fs =>
    match stat fs cwd path with
    | Except.ok Node.dir => Except.ok fs
    | Except.ok _ => Except.error ⟨"mkdir", path, Errno.ENOTDIR⟩
    | Except.error _ =>
      match (if (parentOf path).length > 0 then mkdirAllAux cwd fuel (parentOf path) fs
             else Except.ok fs) with
      | Except.error e => Except.error e
      | Except.ok fs1 =>
        match mkdir fs1 cwd path with
        | Except.ok fs2 => Except.ok fs2
        | Except.error e =>
          match lstat fs1 cwd path with
          | Except.ok Node.dir => Except.ok fs1
          | _ => Except.error ⟨"mkdir", path, e⟩

/-- Go `os.MkdirAll(path, 0755)`: nothing to do when `path` is a directory, an
error when it is something else, and otherwise the parent is ensured first and
`path` made; a failed `mkdir` is forgiven when `path` is a directory after
all. -/
def mkdirAll (fs : FS) (cwd : Path) (path : String) : Except PathError FS :=
  mkdirAllAux cwd (path.length + 1) path fs

/-- Go `os.Symlink(old, new)`: `new` must not exist (the last component is not
followed), its parent must. -/
def symlink (fs : FS) (cwd : Path) (old new : String) : Except Errno FS :=
  match resolve fs cwd false new with
  | Except.error e => Except.error e
  | Except.ok p =>
    match fs.get p with
    | some _ => Except.error Errno.EEXIST
    | none => Except.ok (fs.set p (Node.link old))

/-- Go `os.Remove(name)`: `unlink`, and `rmdir` when that fails; the last
component is not followed, a directory must be empty. -/
def remove (fs : FS) (cwd : Path) (path : String) : Except Errno FS :=
  match resolve fs cwd false path with
  | Except.error e => Except.error e
  | Except.ok p =>
    match fs.get p with
    | none => Except.error Errno.ENOENT
    | some Node.dir =>
      if p = [] then Except.error Errno.EBUSY
      else if fs.hasChild p then Except.error Errno.ENOTEMPTY
      else Except.ok (fs.erase p)
    | some _ => Except.ok (fs.erase p)

/-- Go `os.Open(name)`: open for reading, links followed; the handle is the
canonical path of what was opened. -/
def openRead (fs : FS) (cwd : Path) (path : String) : Except Errno Path :=
  match resolve fs cwd true path with
  | Except.error e => Except.error e
  | Except.ok p =>
    match fs.get p with
    | none => Except.error Errno.ENOENT
    | some _ => Except.ok p

/-- Go `os.Create(name)`: `open` with `O_RDWR|O_CREATE|O_TRUNC`; links are
followed, so a dangling link makes the file it points to; an existing file is
emptied. -/
def create (fs : FS) (cwd : Path) (path : String) : Except Errno (Path × FS) :=
  match resolve fs cwd true path with
  | Except.error e => Except.error e
  | Except.ok p =>
    match fs.get p with
    | some Node.dir => Except.error Errno.EISDIR
    | some (Node.link _) => Except.error Errno.ELOOP
    | _ => Except.ok (p, fs.set p (Node.file []))

/-- Go `io.Copy(dst, src)` on two open files: all of `src` is written to
`dst`. -/
def copy (fs : FS) (dst src : Path) : Except Errno FS :=
  match fs.get src with
  | some (Node.file c) => Except.ok (fs.set dst (Node.file c))
  | some Node.dir => Except.error Errno.EISDIR
  | _ => Except.error Errno.ENOENT

/-- Reading a file by name, links followed. -/
def readFile (fs : FS) (cwd : Path) (path : String) : Except Errno Bytes :=
  match stat fs cwd path with
  | Except.ok (Node.file c) => Except.ok c
  | Except.ok _ => Except.error Errno.EISDIR
  | Except.error e => Except.error e

/-! ## The process: environment, trace, termination -/

/-- What the process is started in: its working directory, its effective user
id, the outcome of every external command it may run, by name and arguments
(`none` for success, `some text` for a failure that prints as `text`), and what
running that command does to the file system the process sees. -/
structure Env where
  cwd : Path
  euid : Nat
  cmd : String → List String → Option String
  effect : String → List String → FS → FS

/-- What the process does that can be seen from outside, in order: text on its
two output streams, the `os` calls it makes and the commands it runs (each with
whether it succeeded). -/
inductive Event where
  | stdout (text : String)
  | stderr (text : String)
  | stat (path : String) (ok : Bool)
  | mkdirAll (path : String) (ok : Bool)
  | symlink (old new : String) (ok : Bool)
  | remove (path : String) (ok : Bool)
  | openRead (path : String) (ok : Bool)
  | create (path : String) (ok : Bool)
  | copy (ok : Bool)
  | exec (name : String) (args : List String) (ok : Bool)
  deriving DecidableEq, Repr

/-- How a piece of the program ends: it returns, or the process is gone through
`os.Exit`. -/
inductive Res (α : Type) where
  | ret (a : α)
  | exit (code : Nat)
  deriving DecidableEq, Repr

/-- The outcome of running a piece of the program: how it ended, the file
system it left, and what it did. -/
structure Step (α : Type) where
  res : Res α
  fs : FS
  log : List Event
  deriving DecidableEq, Repr

/-- A piece of the program, run on a file system. -/
abbrev Prog (α : Type) := FS → Step α

/-- Return without doing anything. -/
def Prog.pure {α : Type} (a : α) : Prog α := fun fs => ⟨Res.ret a, fs, []⟩

/-- The same outcome, with `l` done before it. -/
def Step.after {α : Type} (l : List Event) (s : Step α) : Step α :=
  ⟨s.res, s.fs, l ++ s.log⟩

/-- Sequencing: what follows a piece runs only when that piece returns; after
`os.Exit` nothing runs. -/
def Prog.bind {α β : Type} (p : Prog α) (f : α → Prog β) : Prog β := fun fs =>
  match (p fs).res with
  | Res.ret a => (f a (p fs).fs).after (p fs).log
  | Res.exit c => ⟨Res.exit c, (p fs).fs, (p fs).log⟩

instance : Monad Prog where
  pure := Prog.pure
  bind := Prog.bind

/-- Record one event. -/
def emit (e : Event) : Prog Unit := fun fs => ⟨Res.ret (), fs, [e]⟩

/-- Go `os.Exit(code)`: the process ends here; deferred calls are not run. -/
def osExit {α : Type} (code : Nat) : Prog α := fun fs => ⟨Res.exit code, fs, []⟩

/-- Go `fmt.Printf`, the text already formatted. -/
def printf (text : String) : Prog Unit := emit (Event.stdout text)

/-- Go `fmt.Fprintf(os.Stderr, ...)`, the text already formatted. -/
def eprintf (text : String) : Prog Unit := emit (Event.stderr text)

/-- A Go `for _, x := range xs` loop. -/
def forEach {α : Type} : List α → (α → Prog Unit) → Prog Unit
  | [], _ => Prog.pure ()
  | x :: xs, body => Prog.bind (body x) (fun _ => forEach xs body)

/-- Go `defer f()` in a function whose remaining body is `body`: when the body
returns, `f` runs; when the body ends the process through `os.Exit`, it does
not ("The program terminates immediately; deferred functions are not run."). -/
def withDefer (deferred : Prog Unit) (body : Prog Unit) : Prog Unit :=
  Prog.bind body (fun _ => deferred)

/-- Run an `os` call that may change the file system, record it, and give its
error. -/
def osCall (op : FS → Except PathError FS) (ev : Bool → Event) : Prog (Option PathError) :=
  fun fs =>
    match op fs with
    | Except.ok fs1 => ⟨Res.ret none, fs1, [ev true]⟩
    | Except.error e => ⟨Res.ret (some e), fs, [ev false]⟩

/-- Put the operation and path of a failed call around its error number. -/
def withPath {α : Type} (op path : String) : Except Errno α → Except PathError α
  | Except.ok a => Except.ok a
  | Except.error e => Except.error ⟨op, path, e⟩

/-- Go `os.Stat(path)`: the error, if any. -/
def osStat (env : Env) (path : String) : Prog (Option PathError) := fun fs =>
  match stat fs env.cwd path with
  | Except.ok _ => ⟨Res.ret none, fs, [Event.stat path true]⟩
  | Except.error e => ⟨Res.ret (some ⟨"stat", path, e⟩), fs, [Event.stat path false]⟩

/-- Go `os.IsNotExist(err)`. -/
def isNotExist : Option PathError → Bool
  | some e => decide (e.err = Errno.ENOENT)
  | none => false

/-- Go `os.MkdirAll(path, 0755)`. -/
def osMkdirAll (env : Env) (path : String) : Prog (Option PathError) :=
  osCall (fun fs => mkdirAll fs env.cwd path) (Event.mkdirAll path)

/-- Go `os.Symlink(old, new)`. -/
def osSymlink (env : Env) (old new : String) : Prog (Option PathError) :=
  osCall (fun fs => withPath "symlink" new (symlink fs env.cwd old new)) (Event.symlink old new)

/-- Go `os.Remove(path)`. -/
def osRemove (env : Env) (path : String) : Prog (Option PathError) :=
  osCall (fun fs => withPath "remove" path (remove fs env.cwd path)) (Event.remove path)

/-- Go `os.Open(path)`: the open file or the error. -/
def osOpen (env : Env) (path : String) : Prog (Except PathError Path) := fun fs =>
  match openRead fs env.cwd path with
  | Except.ok h => ⟨Res.ret (Except.ok h), fs, [Event.openRead path true]⟩
  | Except.error e =>
    ⟨Res.ret (Except.error ⟨"open", path, e⟩), fs, [Event.openRead path false]⟩

/-- Go `os.Create(path)`: the open file or the error. -/
def osCreate (env : Env) (path : String) : Prog (Except PathError Path) := fun fs =>
  match create fs env.cwd path with
  | Except.ok (h, fs1) => ⟨Res.ret (Except.ok h), fs1, [Event.create path true]⟩
  | Except.error e =>
    ⟨Res.ret (Except.error ⟨"open", path, e⟩), fs, [Event.create path false]⟩

/-- Go `io.Copy(dst, src)`; `name` is the name `src` was opened by. -/
def ioCopy (dst src : Path) (name : String) : Prog (Option PathError) :=
  osCall (fun fs => withPath "read" name (copy fs dst src)) Event.copy

/-- Go `exec.Command(name, args...).Run()`: the command runs, with its effect
on the file system, and the text of its error, if any, comes back. -/
def runCmd (env : Env) (name : String) (args : List String) : Prog (Option String) := fun fs =>
  match env.cmd name args with
  | none => ⟨Res.ret none, env.effect name args fs, [Event.exec name args true]⟩
  | some e => ⟨Res.ret (some e), env.effect name args fs, [Event.exec name args false]⟩

/-- What `%v` prints for a `[]string`. -/
def showArgs (args : List String) : String := "[" ++ " ".intercalate args ++ "]"

/-! ## The program (`src/main.go`) -/

/-- The command line after `flag.Parse`: `-u`, `-r`, `-h`, and the arguments
that are not flags (`flag.Args()`). -/
structure Opts where
  userSpec : String
  skipResolvConf : Bool
  showHelp : Bool
  args : List String

/-- Go `fatalf`, the message already formatted: it goes to the error stream
between `error: ` and a newline, then `os.Exit(1)`. -/
def fatalf {α : Type} (msg : String) : Prog α :=
  Prog.bind (eprintf ("error: " ++ msg ++ "\n")) (fun _ => osExit 1)

/-- The text of `printHelp`. -/
def helpText : String :=
  "usage: artix-chroot chroot-dir [command...]\n\n" ++
  "    -h                  Show this help\n" ++
  "    -u <user>[:group]   Run as specified user\n" ++
  "    -r                  Do not update resolv.conf\n\n" ++
  "If command is unspecified, runs /bin/bash.\n"

/-- Go `printHelp`. -/
def printHelp : Prog Unit := printf helpText

/-- Go `mountEssentials`: for `proc`, `sys`, `dev` in this order, ensure the
directory and bind-mount onto it; any failure is fatal. -/
def mountEssentials (env : Env) (chrootDir : String) : Prog Unit :=
  let mounts := ["proc", "sys", "dev"]
  forEach mounts (fun fs => do
    let source := "/" ++ fs
    let target := chrootDir ++ "/" ++ fs
    match (← osMkdirAll env target) with
    | some err => fatalf ("Failed to create directory " ++ target ++ ": " ++ err.text)
    | none => pure ()
    match (← runCmd env "mount" ["--bind", source, target]) with
    | some err =>
      fatalf ("Failed to bind mount " ++ source ++ " -> " ++ target ++ ": " ++ err)
    | none => pure ())

/-- Go `setupResolvConf`. -/
def setupResolvConf (env : Env) (chrootDir : String) : Prog Unit := do
  let hostResolv := "/etc/resolv.conf"
  let chrootResolv := chrootDir ++ "/etc/resolv.conf"
  match (← osMkdirAll env (chrootDir ++ "/etc")) with
  | some err => fatalf ("Failed to create /etc in chroot: " ++ err.text)
  | none => pure ()
  match (← osSymlink env hostResolv chrootResolv) with
  | none =>
    printf ("→ resolv.conf: symlinked " ++ hostResolv ++ " → " ++ chrootResolv ++ "\n")
  | some _ => do
    match (← osStat env chrootResolv) with
    | none => do
      match (← osRemove env chrootResolv) with
      | some err =>
        fatalf ("Failed to remove existing " ++ chrootResolv ++ ": " ++ err.text)
      | none => pure ()
      printf ("→ removed existing " ++ chrootResolv ++ "\n")
    | some _ => pure ()
    printf ("→ resolv.conf: copying " ++ hostResolv ++ " → " ++ chrootResolv ++ "\n")
    match (← osOpen env hostResolv) with
    | Except.error err => fatalf ("Failed to open " ++ hostResolv ++ ": " ++ err.text)
    | Except.ok src => do
      match (← osCreate env chrootResolv) with
      | Except.error err => fatalf ("Failed to create " ++ chrootResolv ++ ": " ++ err.text)
      | Except.ok dst => do
        match (← ioCopy dst src hostResolv) with
        | some err => fatalf ("Failed to copy resolv.conf: " ++ err.text)
        | none => pure ()
        printf ("→ resolv.conf: copied " ++ hostResolv ++ " → " ++ chrootResolv ++ "\n")

/-- Go `checkMountpoint`: a warning, nothing else. -/
def checkMountpoint (chrootDir : String) : Prog Unit :=
  printf ("⚠️  Warning: " ++ chrootDir ++ " is not checked as mountpoint (not implemented yet)\n")

/-- The argument list `runChroot` builds for the `chroot` command. -/
def chrootArgs (chrootDir userSpec : String) (cmdArgs : List String) : List String :=
  let args := [chrootDir]
  let args := if userSpec ≠ "" then ["--userspec", userSpec] ++ args else args
  args ++ cmdArgs

/-- Go `runChroot`. -/
def runChroot (env : Env) (chrootDir userSpec : String) (cmdArgs : List String) : Prog Unit := do
  let args := chrootArgs chrootDir userSpec cmdArgs
  printf ("→ Executing: chroot " ++ showArgs args ++ "\n")
  match (← runCmd env "chroot" args) with
  | some err => fatalf ("chroot failed: " ++ err)
  | none => pure ()

/-- Go `umountEssentials`: for `dev`, `sys`, `proc` in this order, run `umount`;
a failure is a warning. -/
def umountEssentials (env : Env) (chrootDir : String) : Prog Unit :=
  let mounts := ["dev", "sys", "proc"]
  forEach mounts (fun fs => do
    let target := chrootDir ++ "/" ++ fs
    match (← runCmd env "umount" [target]) with
    | some err => eprintf ("⚠️  Failed to unmount " ++ target ++ ": " ++ err ++ "\n")
    | none => printf ("→ Unmounted " ++ target ++ "\n"))

/-- Go `main`, after `flag.Parse`. -/
def main (env : Env) (o : Opts) : Prog Unit := do
  if o.showHelp then
    printHelp
    osExit 0
  if o.args.length < 1 then
    fatalf "No chroot directory specified"
  let chrootDir := o.args.headD ""
  let cmdArgs := o.args.drop 1
  let cmdArgs := if cmdArgs.length = 0 then ["/bin/bash"] else cmdArgs
  if env.euid ≠ 0 then
    fatalf "This program must be run as root"
  if isNotExist (← osStat env chrootDir) then
    fatalf ("Chroot directory does not exist: " ++ chrootDir)
  mountEssentials env chrootDir
  withDefer (umountEssentials env chrootDir) (do
    if !o.skipResolvConf then
      setupResolvConf env chrootDir
    checkMountpoint chrootDir
    runChroot env chrootDir o.userSpec cmdArgs)

/-! ## Vocabulary of the statements -/

/-- The commands run, in order: name and arguments. -/
def execsOf (log : List Event) : List (String × List String) :=
  log.filterMap (fun e =>
    match e with
    | Event.exec n a _ => some (n, a)
    | _ => none)

/-- The argument lists of the runs of the command `name`, in order. -/
def callsOf (name : String) (log : List Event) : List (List String) :=
  (execsOf log).filterMap (fun c => if c.1 = name then some c.2 else none)

/-- The targets of the bind mounts attempted, in order. -/
def mountTargets (log : List Event) : List String :=
  (callsOf "mount" log).filterMap (fun a => a.getLast?)

/-- The targets of the unmounts attempted, in order. -/
def umountTargets (log : List Event) : List String :=
  (callsOf "umount" log).filterMap (fun a => a.getLast?)

/-- Whether the event is a call or command that failed. -/
def Event.failed : Event → Bool
  | Event.stdout _ => false
  | Event.stderr _ => false
  | Event.stat _ ok => !ok
  | Event.mkdirAll _ ok => !ok
  | Event.symlink _ _ ok => !ok
  | Event.remove _ ok => !ok
  | Event.openRead _ ok => !ok
  | Event.create _ ok => !ok
  | Event.copy ok => !ok
  | Event.exec _ _ ok => !ok

/-- Whether the event is an action on the system: a directory made, a link
made, a file removed, made or written, a command run.  Reading (`stat`,
opening a file for reading) and printing are not. -/
def Event.isAction : Event → Bool
  | Event.mkdirAll _ _ => true
  | Event.symlink _ _ _ => true
  | Event.remove _ _ => true
  | Event.create _ _ => true
  | Event.copy _ => true
  | Event.exec _ _ _ => true
  | _ => false

/-- Whether the event is a call or a command, not a line of output. -/
def Event.isCall : Event → Bool
  | Event.stdout _ => false
  | Event.stderr _ => false
  | _ => true

/-- What one `umount` in `umountEssentials` leaves in the log: the command, and
a line on standard output when it succeeded, a warning on the error stream
when it failed. -/
def umountLog (env : Env) (target : String) : List Event :=
  match env.cmd "umount" [target] with
  | none => [Event.exec "umount" [target] true, Event.stdout ("→ Unmounted " ++ target ++ "\n")]
  | some err =>
    [Event.exec "umount" [target] false,
     Event.stderr ("⚠️  Failed to unmount " ++ target ++ ": " ++ err ++ "\n")]

/-- The argument list the claim gives for the `chroot` command, from the
command line: user spec `u`, directory `d`, command `c`. -/
def expectedChrootArgs (u d : String) (c : List String) : List String :=
  (if u = "" then [d] else ["--userspec", u, d]) ++ (if c = [] then ["/bin/bash"] else c)

/-- One round of the loop of `mountEssentials`, outcome by outcome. -/
def mountStep (env : Env) (d name : String) (fs : FS) : Step Unit :=
  match mkdirAll fs env.cwd (d ++ "/" ++ name) with
  | Except.error e =>
    ⟨Res.exit 1, fs, [Event.mkdirAll (d ++ "/" ++ name) false,
      Event.stderr ("error: " ++
        ("Failed to create directory " ++ (d ++ "/" ++ name) ++ ": " ++ e.text) ++ "\n")]⟩
  | Except.ok fs1 =>
    match env.cmd "mount" ["--bind", "/" ++ name, d ++ "/" ++ name] with
    | some err =>
      ⟨Res.exit 1, env.effect "mount" ["--bind", "/" ++ name, d ++ "/" ++ name] fs1,
       [Event.mkdirAll (d ++ "/" ++ name) true,
        Event.exec "mount" ["--bind", "/" ++ name, d ++ "/" ++ name] false,
        Event.stderr ("error: " ++
          ("Failed to bind mount " ++ ("/" ++ name) ++ " -> " ++ (d ++ "/" ++ name) ++ ": " ++ err)
            ++ "\n")]⟩
    | none =>
      ⟨Res.ret (), env.effect "mount" ["--bind", "/" ++ name, d ++ "/" ++ name] fs1,
       [Event.mkdirAll (d ++ "/" ++ name) true,
        Event.exec "mount" ["--bind", "/" ++ name, d ++ "/" ++ name] true]⟩

/-- The copy at the end of `setupResolvConf`, outcome by outcome: open the host
file, create the target, copy. -/
def copyHost (env : Env) (d : String) (fs : FS) : Step Unit :=
  match openRead fs env.cwd "/etc/resolv.conf" with
  | Except.error e =>
    ⟨Res.exit 1, fs,
      [Event.stdout ("→ resolv.conf: copying " ++ "/etc/resolv.conf" ++ " → " ++
          (d ++ "/etc/resolv.conf") ++ "\n"),
       Event.openRead "/etc/resolv.conf" false,
       Event.stderr ("error: " ++ ("Failed to open " ++ "/etc/resolv.conf" ++ ": " ++
          (PathError.mk "open" "/etc/resolv.conf" e).text) ++ "\n")]⟩
  | Except.ok src =>
    match create fs env.cwd (d ++ "/etc/resolv.conf") with
    | Except.error e =>
      ⟨Res.exit 1, fs,
        [Event.stdout ("→ resolv.conf: copying " ++ "/etc/resolv.conf" ++ " → " ++
            (d ++ "/etc/resolv.conf") ++ "\n"),
         Event.openRead "/etc/resolv.conf" true,
         Event.create (d ++ "/etc/resolv.conf") false,
         Event.stderr ("error: " ++ ("Failed to create " ++ (d ++ "/etc/resolv.conf") ++ ": " ++
            (PathError.mk "open" (d ++ "/etc/resolv.conf") e).text) ++ "\n")]⟩
    | Except.ok r =>
      match copy r.2 r.1 src with
      | Except.error e =>
        ⟨Res.exit 1, r.2,
          [Event.stdout ("→ resolv.conf: copying " ++ "/etc/resolv.conf" ++ " → " ++
              (d ++ "/etc/resolv.conf") ++ "\n"),
           Event.openRead "/etc/resolv.conf" true,
           Event.create (d ++ "/etc/resolv.conf") true,
           Event.copy false,
           Event.stderr ("error: " ++ ("Failed to copy resolv.conf: " ++
              (PathError.mk "read" "/etc/resolv.conf" e).text) ++ "\n")]⟩
      | Except.ok fs2 =>
        ⟨Res.ret (), fs2,
          [Event.stdout ("→ resolv.conf: copying " ++ "/etc/resolv.conf" ++ " → " ++
              (d ++ "/etc/resolv.conf") ++ "\n"),
           Event.openRead "/etc/resolv.conf" true,
           Event.create (d ++ "/etc/resolv.conf") true,
           Event.copy true,
           Event.stdout ("→ resolv.conf: copied " ++ "/etc/resolv.conf" ++ " → " ++
              (d ++ "/etc/resolv.conf") ++ "\n")]⟩

/-- What `setupResolvConf` does after `os.Symlink` has failed, outcome by
outcome: remove what `os.Stat` finds at the target, then copy. -/
def copyFallback (env : Env) (d : String) (fs : FS) : Step Unit :=
  match stat fs env.cwd (d ++ "/etc/resolv.conf") with
  | Except.ok _ =>
    match remove fs env.cwd (d ++ "/etc/resolv.conf") with
    | Except.error e =>
      ⟨Res.exit 1, fs,
        [Event.stat (d ++ "/etc/resolv.conf") true,
         Event.remove (d ++ "/etc/resolv.conf") false,
         Event.stderr ("error: " ++ ("Failed to remove existing " ++ (d ++ "/etc/resolv.conf") ++
            ": " ++ (PathError.mk "remove" (d ++ "/etc/resolv.conf") e).text) ++ "\n")]⟩
    | Except.ok fs1 =>
      (copyHost env d fs1).after
        [Event.stat (d ++ "/etc/resolv.conf") true,
         Event.remove (d ++ "/etc/resolv.conf") true,
         Event.stdout ("→ removed existing " ++ (d ++ "/etc/resolv.conf") ++ "\n")]
  | Except.error _ =>
    (copyHost env d fs).after [Event.stat (d ++ "/etc/resolv.conf") false]

/-- Go `setupResolvConf`, outcome by outcome. -/
def setupSteps (env : Env) (d : String) (fs : FS) : Step Unit :=
  match mkdirAll fs env.cwd (d ++ "/etc") with
  | Except.error e =>
    ⟨Res.exit 1, fs,
      [Event.mkdirAll (d ++ "/etc") false,
       Event.stderr ("error: " ++ ("Failed to create /etc in chroot: " ++ e.text) ++ "\n")]⟩
  | Except.ok fs1 =>
    match symlink fs1 env.cwd "/etc/resolv.conf" (d ++ "/etc/resolv.conf") with
    | Except.ok fs2 =>
      ⟨Res.ret (), fs2,
        [Event.mkdirAll (d ++ "/etc") true,
         Event.symlink "/etc/resolv.conf" (d ++ "/etc/resolv.conf") true,
         Event.stdout ("→ resolv.conf: symlinked " ++ "/etc/resolv.conf" ++ " → " ++
            (d ++ "/etc/resolv.conf") ++ "\n")]⟩
    | Except.error _ =>
      (copyFallback env d fs1).after
        [Event.mkdirAll (d ++ "/etc") true,
         Event.symlink "/etc/resolv.conf" (d ++ "/etc/resolv.conf") false]

/-- What `main` does once its checks have passed, as one term: the mounts, then
the deferred unmount around the resolver, the warning and the `chroot`. -/
def lifecycle (env : Env) (d u : String) (skip : Bool) (c : List String) : Prog Unit :=
  Prog.bind (mountEssentials env d) (fun _ =>
    withDefer (umountEssentials env d)
      (Prog.bind (if skip then Prog.pure () else setupResolvConf env d) (fun _ =>
        Prog.bind (checkMountpoint d) (fun _ => runChroot env d u c))))

/-- The command `main` hands to `runChroot`: the arguments after the directory,
or `/bin/bash` when there are none. -/
def commandOf (o : Opts) : List String :=
  if (o.args.drop 1).length = 0 then ["/bin/bash"] else o.args.drop 1

/-- A name that is looked up in a directory: not empty, not `.`, not `..`. -/
def ProperName (name : String) : Prop := name ≠ "" ∧ name ≠ "." ∧ name ≠ ".."

/-- Two file systems have the same entries outside the set `S` of paths. -/
def Agree (S : Path → Prop) (fs fs1 : FS) : Prop := ∀ q, ¬ S q → fs.get q = fs1.get q

/-- Every path of `S` is absent or a regular file: resolution cannot pass
through it. -/
def Inert (S : Path → Prop) (fs : FS) : Prop :=
  ∀ q, S q → fs.get q = none ∨ ∃ c, fs.get q = some (Node.file c)

/-- The directory resolution starts from. -/
def baseOf (cwd : Path) (path : String) : Path := if isAbs path then [] else cwd

/-- The path string `d` names an existing directory: it is not empty and
resolves, links followed, to the directory `D`, with `m` of the 40 links the
kernel follows left unused. -/
def TargetDir (fs : FS) (cwd : Path) (d : String) (m : Nat) (D : Path) : Prop :=
  d ≠ "" ∧ walk fs true maxSymlinks (baseOf cwd d) (comps d) = Except.ok (m, D) ∧
    fs.get D = some Node.dir

/-- The host has `/etc/resolv.conf`: the path resolves, links followed, to the
regular file `H` with content `X`, with `r` of the 40 links left unused. -/
def HostFile (fs : FS) (r : Nat) (H : Path) (X : Bytes) : Prop :=
  walk fs true maxSymlinks [] (comps "/etc/resolv.conf") = Except.ok (r, H) ∧
    fs.get H = some (Node.file X)

/-- The path `q` lies below the directory `T`, at any depth; `T` itself does
not. -/
def Below (T q : Path) : Prop := T.length < q.length ∧ q.take T.length = T

instance (T q : Path) : Decidable (Below T q) := by
  unfold Below
  infer_instance

/-- The entries of the target directory `D` that the program makes, removes or
writes: the three mount points, `etc`, and `etc/resolv.conf`. -/
def ownEntries (D : Path) : List Path :=
  [D ++ ["proc"], D ++ ["sys"], D ++ ["dev"], D ++ ["etc"], D ++ ["etc", "resolv.conf"]]

/-- The path `q` lies below one of the mount points `D/proc`, `D/sys`,
`D/dev`. -/
def UnderMounts (D q : Path) : Prop :=
  Below (D ++ ["proc"]) q ∨ Below (D ++ ["sys"]) q ∨ Below (D ++ ["dev"]) q

instance (D q : Path) : Decidable (UnderMounts D q) := by
  unfold UnderMounts
  infer_instance

/-- The file system `fs1` is one the run can be in when it started on `fs` with
the target directory `D`: each of `D/proc`, `D/sys`, `D/dev`, `D/etc` is as in
`fs` or a directory, anything may be at `D/etc/resolv.conf` and below the three
mount points, and every other entry is as in `fs`. -/
def Underway (D : Path) (fs fs1 : FS) : Prop :=
  (∀ q ∈ [D ++ ["proc"], D ++ ["sys"], D ++ ["dev"], D ++ ["etc"]],
    fs1.get q = fs.get q ∨ fs1.get q = some Node.dir) ∧
  (∀ q, q ∉ ownEntries D → ¬ UnderMounts D q → fs1.get q = fs.get q)

/-- The path string `d` names the directory `D`, and goes on doing so during
the run: the way to `D` does not lead through an entry the run changes. -/
def NamesTarget (fs : FS) (cwd : Path) (d : String) (m : Nat) (D : Path) : Prop :=
  ∀ fs1, Underway D fs fs1 → TargetDir fs1 cwd d m D

/-- None of the entries `proc`, `sys`, `dev`, `etc` of `D` is a symbolic
link. -/
def PlainEntries (fs : FS) (D : Path) : Prop :=
  ∀ q ∈ [D ++ ["proc"], D ++ ["sys"], D ++ ["dev"], D ++ ["etc"]],
    ∀ t, fs.get q ≠ some (Node.link t)

/-- The entry `D/etc/resolv.conf` is not a dangling symbolic link, and does not
become one during the run: as long as the entry is as in `fs`, the path
`d/etc/resolv.conf`, links followed, never leads to a name that is missing from
its directory, unless that name is `D/etc/resolv.conf` itself. -/
def NeverDangling (fs : FS) (cwd : Path) (d : String) (D : Path) : Prop :=
  ∀ fs1, Underway D fs fs1 →
    fs1.get (D ++ ["etc", "resolv.conf"]) = fs.get (D ++ ["etc", "resolv.conf"]) →
    ∀ p, resolve fs1 cwd true (d ++ "/etc/resolv.conf") = Except.ok p → fs1.get p = none →
      p = D ++ ["etc", "resolv.conf"]

/-- Every event a piece of the program can log, on whatever file system it
runs, satisfies `P`. -/
def LogAll {α : Type} (P : Event → Prop) (p : Prog α) : Prop :=
  ∀ fs, ∀ e ∈ (p fs).log, P e

/-! ## Concrete worlds -/

/-- A host with `/etc/resolv.conf`, `/proc`, `/sys`, `/dev`, and an empty
directory `/mnt/x`. -/
def hostFS : FS :=
  [(["etc"], Node.dir), (["etc", "resolv.conf"], Node.file [110, 115, 10]),
   (["proc"], Node.dir), (["sys"], Node.dir), (["dev"], Node.dir),
   (["mnt"], Node.dir), (["mnt", "x"], Node.dir)]

/-- A host without `/etc/resolv.conf`; the target `/mnt/x` has its own. -/
def noHostResolvFS : FS :=
  [(["etc"], Node.dir), (["proc"], Node.dir), (["sys"], Node.dir), (["dev"], Node.dir),
   (["mnt"], Node.dir), (["mnt", "x"], Node.dir), (["mnt", "x", "etc"], Node.dir),
   (["mnt", "x", "etc", "resolv.conf"], Node.file [49, 10])]

/-- The host of `hostFS` where the target `/mnt/x` has a `resolv.conf` of its
own, a regular file. -/
def ownResolvFS : FS :=
  (["mnt", "x", "etc"], Node.dir) :: (["mnt", "x", "etc", "resolv.conf"], Node.file [49, 10]) ::
    hostFS

/-- The host of `hostFS` where the target `/mnt/x` has a regular file named
`etc`. -/
def etcFileFS : FS := (["mnt", "x", "etc"], Node.file []) :: hostFS

/-- The name of the `i`-th link of `chainFS`: `l`, `ll`, `lll`, ... -/
def chainName (i : Nat) : String := String.mk (List.replicate (i + 1) 'l')

/-- The host of `hostFS` with a chain of `n` symbolic links in `/`: `/l` points
to `/mnt/x`, `/ll` to `/l`, `/lll` to `/ll`, and so on. -/
def chainFS : Nat → FS
  | 0 => hostFS
  | i + 1 =>
    ([chainName i], Node.link (if i = 0 then "/mnt/x" else "/" ++ chainName (i - 1))) :: chainFS i

/-- Root, in `/`, every command succeeds and changes nothing that is seen (on
the hosts it is used with, `/proc`, `/sys` and `/dev` are empty, so their bind
mounts show nothing). -/
def envOk : Env := ⟨[], 0, fun _ _ => none, fun _ _ fs => fs⟩

/-- Root, in `/`, `chroot` fails, every other command succeeds. -/
def envChrootFails : Env :=
  ⟨[], 0, fun name _ => if name = "chroot" then some "exit status 127" else none,
    fun _ _ fs => fs⟩

/-- Root, in `/`, the bind mount onto `/mnt/x/sys` fails, every other command
succeeds. -/
def envSysMountFails : Env :=
  ⟨[], 0, fun name args =>
    if name = "mount" ∧ args = ["--bind", "/sys", "/mnt/x/sys"] then some "exit status 32"
    else none, fun _ _ fs => fs⟩

/-- What a bind mount of the directory `S` on the directory `T` shows: below
`T`, what lies below `S`, in place of what was there. -/
def bindShow (fs : FS) (S T : Path) : FS :=
  (fs.filter (fun e => decide (Below S e.1))).map (fun e => (T ++ e.1.drop S.length, e.2)) ++
    fs.filter (fun e => ¬ Below T e.1)

/-- Root, in `/`, every command succeeds; a bind mount of a directory on a
directory shows the source below the mount point, an unmount leaves the mount
point empty (as it was on the targets here), the command run by `chroot`
changes nothing. -/
def envBind : Env :=
  ⟨[], 0, fun _ _ => none, fun name args fs =>
    if name = "mount" then
      match args with
      | [_, src, tgt] =>
        match resolve fs [] true src, resolve fs [] true tgt with
        | Except.ok S, Except.ok T =>
          if fs.get S = some Node.dir ∧ fs.get T = some Node.dir then bindShow fs S T else fs
        | _, _ => fs
      | _ => fs
    else if name = "umount" then
      match args with
      | [tgt] =>
        match resolve fs [] true tgt with
        | Except.ok T => fs.filter (fun e => ¬ Below T e.1)
        | _ => fs
      | _ => fs
    else fs⟩

/-- The host of `hostFS` with a directory `/run` and, in `/dev`, a symbolic link
`resolv.conf` to `/run/resolv.conf`, which does not exist; the target `/mnt/x`
has a directory `etc`, and its `dev` is a symbolic link to `etc`. -/
def devLinkFS : FS :=
  (["run"], Node.dir) :: (["dev", "resolv.conf"], Node.link "/run/resolv.conf") ::
  (["mnt", "x", "etc"], Node.dir) :: (["mnt", "x", "dev"], Node.link "etc") :: hostFS

/-- The host of `hostFS` where the target `/mnt/x` has `etc` as a symbolic link
to `/etc`. -/
def etcLinkFS : FS := (["mnt", "x", "etc"], Node.link "/etc") :: hostFS

/-- Not root. -/
def envUser : Env := ⟨[], 1000, fun _ _ => none, fun _ _ fs => fs⟩

/-- The command line `fast-chroot /mnt/x`. -/
def optsX : Opts := ⟨"", false, false, ["/mnt/x"]⟩

/-! ## How the pieces of `Prog` compute -/

section basics
variable {α β γ : Type}

@[simp] theorem bind_eq (p : Prog α) (f : α → Prog β) : (p >>= f) = Prog.bind p f := rfl

@[simp] theorem pure_eq (a : α) : (pure a : Prog α) = Prog.pure a := rfl

@[simp] theorem after_res (l : List Event) (s : Step α) : (s.after l).res = s.res := rfl

@[simp] theorem after_fs (l : List Event) (s : Step α) : (s.after l).fs = s.fs := rfl

@[simp] theorem after_log (l : List Event) (s : Step α) : (s.after l).log = l ++ s.log := rfl

@[simp] theorem after_after (l m : List Event) (s : Step α) :
    (s.after m).after l = s.after (l ++ m) := by
  simp [Step.after]

@[simp] theorem after_mk (l m : List Event) (r : Res α) (fs : FS) :
    (Step.mk r fs m).after l = ⟨r, fs, l ++ m⟩ := rfl

@[simp] theorem after_nil (s : Step α) : s.after [] = s := rfl

@[simp] theorem pure_apply (a : α) (fs : FS) : Prog.pure a fs = ⟨Res.ret a, fs, []⟩ := rfl

@[simp] theorem emit_apply (e : Event) (fs : FS) : emit e fs = ⟨Res.ret (), fs, [e]⟩ := rfl

@[simp] theorem osExit_apply (c : Nat) (fs : FS) :
    (osExit c : Prog α) fs = ⟨Res.exit c, fs, []⟩ := rfl

@[simp] theorem emit_bind (e : Event) (f : Unit → Prog β) (fs : FS) :
    Prog.bind (emit e) f fs = (f () fs).after [e] := rfl

@[simp] theorem pure_bind_apply (a : α) (f : α → Prog β) (fs : FS) :
    Prog.bind (Prog.pure a) f fs = f a fs := by
  simp [Prog.bind, Step.after]

@[simp] theorem fatalf_apply (msg : String) (fs : FS) :
    (fatalf msg : Prog α) fs = ⟨Res.exit 1, fs, [Event.stderr ("error: " ++ msg ++ "\n")]⟩ := rfl

@[simp] theorem fatalf_bind (msg : String) (f : α → Prog β) (fs : FS) :
    Prog.bind (fatalf msg) f fs =
      ⟨Res.exit 1, fs, [Event.stderr ("error: " ++ msg ++ "\n")]⟩ := rfl

@[simp] theorem bind_assoc (p : Prog α) (f : α → Prog β) (g : β → Prog γ) :
    Prog.bind (Prog.bind p f) g = Prog.bind p (fun a => Prog.bind (f a) g) := by
  funext fs
  simp only [Prog.bind]
  cases h : (p fs).res with
  | exit c => simp
  | ret a =>
    simp only [after_res, after_fs, after_log]
    cases h2 : (f a (p fs).fs).res <;> simp [Step.after]

theorem bind_ret {p : Prog α} {fs : FS} {a : α} (h : (p fs).res = Res.ret a)
    (f : α → Prog β) : Prog.bind p f fs = (f a (p fs).fs).after (p fs).log := by
  simp [Prog.bind, h]

theorem bind_exit {p : Prog α} {fs : FS} {c : Nat} (h : (p fs).res = Res.exit c)
    (f : α → Prog β) : Prog.bind p f fs = ⟨Res.exit c, (p fs).fs, (p fs).log⟩ := by
  simp [Prog.bind, h]

theorem runCmd_bind (env : Env) (n : String) (a : List String) (f : Option String → Prog β)
    (fs : FS) :
    Prog.bind (runCmd env n a) f fs =
      (f (env.cmd n a) (env.effect n a fs)).after [Event.exec n a (env.cmd n a).isNone] := by
  unfold Prog.bind runCmd
  cases env.cmd n a <;> rfl

theorem osCall_bind (op : FS → Except PathError FS) (ev : Bool → Event)
    (f : Option PathError → Prog β) (fs : FS) :
    Prog.bind (osCall op ev) f fs =
      match op fs with
      | Except.ok fs1 => (f none fs1).after [ev true]
      | Except.error e => (f (some e) fs).after [ev false] := by
  unfold Prog.bind osCall
  cases op fs <;> rfl

theorem osStat_bind (env : Env) (path : String) (f : Option PathError → Prog β) (fs : FS) :
    Prog.bind (osStat env path) f fs =
      match stat fs env.cwd path with
      | Except.ok _ => (f none fs).after [Event.stat path true]
      | Except.error e => (f (some ⟨"stat", path, e⟩) fs).after [Event.stat path false] := by
  unfold Prog.bind osStat
  cases stat fs env.cwd path <;> rfl

theorem osOpen_bind (env : Env) (path : String) (f : Except PathError Path → Prog β) (fs : FS) :
    Prog.bind (osOpen env path) f fs =
      match openRead fs env.cwd path with
      | Except.ok h => (f (Except.ok h) fs).after [Event.openRead path true]
      | Except.error e =>
        (f (Except.error ⟨"open", path, e⟩) fs).after [Event.openRead path false] := by
  unfold Prog.bind osOpen
  cases openRead fs env.cwd path <;> rfl

theorem osCreate_bind (env : Env) (path : String) (f : Except PathError Path → Prog β)
    (fs : FS) :
    Prog.bind (osCreate env path) f fs =
      match create fs env.cwd path with
      | Except.ok r => (f (Except.ok r.1) r.2).after [Event.create path true]
      | Except.error e =>
        (f (Except.error ⟨"open", path, e⟩) fs).after [Event.create path false] := by
  unfold Prog.bind osCreate
  cases create fs env.cwd path <;> rfl

theorem slash_proc (d : String) : d ++ "/" ++ "proc" = d ++ "/proc" := by
  rw [String.append_assoc]; rfl

theorem slash_sys (d : String) : d ++ "/" ++ "sys" = d ++ "/sys" := by
  rw [String.append_assoc]; rfl

theorem slash_dev (d : String) : d ++ "/" ++ "dev" = d ++ "/dev" := by
  rw [String.append_assoc]; rfl

end basics

/-! ## `umountEssentials` -/

theorem umount_body {β : Type} (env : Env) (t : String) (f : Unit → Prog β) (fs : FS) :
    Prog.bind (runCmd env "umount" [t]) (fun a => Prog.bind (match a with
      | some err => eprintf ("⚠️  Failed to unmount " ++ t ++ ": " ++ err ++ "\n")
      | none => printf ("→ Unmounted " ++ t ++ "\n")) f) fs
      = (f () (env.effect "umount" [t] fs)).after (umountLog env t) := by
  rw [runCmd_bind]
  unfold umountLog
  cases env.cmd "umount" [t] <;> simp [printf, eprintf]

theorem umountEssentials_apply (env : Env) (d : String) (fs : FS) :
    umountEssentials env d fs =
      ⟨Res.ret (),
        env.effect "umount" [d ++ "/proc"] (env.effect "umount" [d ++ "/sys"]
          (env.effect "umount" [d ++ "/dev"] fs)),
        umountLog env (d ++ "/dev") ++ umountLog env (d ++ "/sys") ++ umountLog env (d ++ "/proc")⟩ := by
  simp only [umountEssentials, forEach, bind_eq, pure_eq, bind_assoc, umount_body]
  simp [slash_proc, slash_sys, slash_dev]

theorem execsOf_append (l m : List Event) : execsOf (l ++ m) = execsOf l ++ execsOf m := by
  simp [execsOf]

theorem execsOf_umountLog (env : Env) (t : String) :
    execsOf (umountLog env t) = [("umount", [t])] := by
  unfold umountLog
  cases env.cmd "umount" [t] <;> rfl

/-- C4: whatever the three `umount` commands do, `umountEssentials` returns (it
never ends the process), leaves the file system as these three commands leave
it (it changes nothing itself), and its log is the three attempts on `d/dev`,
`d/sys`, `d/proc` in this order, each followed by a line on standard output
when it succeeded and by a warning on the error stream when it failed; so the
commands it runs are exactly these three. -/
theorem umountEssentials_attempts_all (env : Env) (d : String) (fs : FS) :
    (umountEssentials env d fs).res = Res.ret () ∧
    (umountEssentials env d fs).fs =
      env.effect "umount" [d ++ "/proc"] (env.effect "umount" [d ++ "/sys"]
        (env.effect "umount" [d ++ "/dev"] fs)) ∧
    (umountEssentials env d fs).log =
      umountLog env (d ++ "/dev") ++ umountLog env (d ++ "/sys") ++ umountLog env (d ++ "/proc") ∧
    execsOf (umountEssentials env d fs).log =
      [("umount", [d ++ "/dev"]), ("umount", [d ++ "/sys"]), ("umount", [d ++ "/proc"])] ∧
    (∀ t err, env.cmd "umount" [t] = some err →
      umountLog env t = [Event.exec "umount" [t] false,
        Event.stderr ("⚠️  Failed to unmount " ++ t ++ ": " ++ err ++ "\n")]) := by
  rw [umountEssentials_apply]
  refine ⟨rfl, rfl, rfl, ?_, ?_⟩
  · simp [execsOf_append, execsOf_umountLog]
  · intro t err h
    simp [umountLog, h]

/-! ## What a piece of the program can log -/

section logall
variable {α β : Type} {P : Event → Prop}

theorem LogAll.bind {p : Prog α} {f : α → Prog β} (hp : LogAll P p)
    (hf : ∀ a, LogAll P (f a)) : LogAll P (Prog.bind p f) := by
  intro fs e he
  unfold Prog.bind at he
  cases h : (p fs).res with
  | ret a =>
    rw [h] at he
    simp only [after_log, List.mem_append] at he
    rcases he with he | he
    · exact hp fs e he
    · exact hf a _ e he
  | exit c =>
    rw [h] at he
    exact hp fs e he

theorem LogAll.pure (a : α) : LogAll P (Prog.pure a) := by
  intro fs e he
  simp at he

theorem LogAll.emit {e : Event} (h : P e) : LogAll P (emit e) := by
  intro fs e1 he
  simp at he
  rw [he]; exact h

theorem LogAll.osExit (c : Nat) : LogAll P (osExit c : Prog α) := by
  intro fs e he
  simp at he

theorem LogAll.fatalf (msg : String) (h : ∀ t, P (Event.stderr t)) :
    LogAll P (fatalf msg : Prog α) := by
  intro fs e he
  simp at he
  rw [he]; exact h _

theorem LogAll.osCall (op : FS → Except PathError FS) (ev : Bool → Event) (h : ∀ b, P (ev b)) :
    LogAll P (osCall op ev) := by
  intro fs e he
  unfold FastChroot.osCall at he
  cases h1 : op fs <;> rw [h1] at he <;> simp at he <;> rw [he] <;> exact h _

theorem LogAll.runCmd (env : Env) (n : String) (a : List String)
    (h : ∀ b, P (Event.exec n a b)) : LogAll P (runCmd env n a) := by
  intro fs e he
  unfold FastChroot.runCmd at he
  cases h1 : env.cmd n a <;> rw [h1] at he <;> simp at he <;> rw [he] <;> exact h _

theorem LogAll.osStat (env : Env) (path : String) (h : ∀ b, P (Event.stat path b)) :
    LogAll P (osStat env path) := by
  intro fs e he
  unfold FastChroot.osStat at he
  cases h1 : stat fs env.cwd path <;> rw [h1] at he <;> simp at he <;> rw [he] <;> exact h _

theorem LogAll.osOpen (env : Env) (path : String) (h : ∀ b, P (Event.openRead path b)) :
    LogAll P (osOpen env path) := by
  intro fs e he
  unfold FastChroot.osOpen at he
  cases h1 : openRead fs env.cwd path <;> rw [h1] at he <;> simp at he <;> rw [he] <;> exact h _

theorem LogAll.osCreate (env : Env) (path : String) (h : ∀ b, P (Event.create path b)) :
    LogAll P (osCreate env path) := by
  intro fs e he
  unfold FastChroot.osCreate at he
  cases h1 : create fs env.cwd path <;> rw [h1] at he <;> simp at he <;> rw [he] <;> exact h _

theorem LogAll.forEach {ι : Type} (xs : List ι) (body : ι → Prog Unit)
    (h : ∀ x, LogAll P (body x)) : LogAll P (forEach xs body) := by
  induction xs with
  | nil => exact LogAll.pure ()
  | cons x xs ih => exact LogAll.bind (h x) (fun _ => ih)

end logall

/-- The events `mountEssentials` can log: ensuring a directory, running
`mount`, and the message of a fatal error. -/
theorem mountEssentials_logAll {P : Event → Prop} (env : Env) (d : String)
    (h1 : ∀ p b, P (Event.mkdirAll p b)) (h2 : ∀ a b, P (Event.exec "mount" a b))
    (h3 : ∀ t, P (Event.stderr t)) : LogAll P (mountEssentials env d) := by
  unfold mountEssentials
  apply LogAll.forEach
  intro x
  simp only [bind_eq, pure_eq]
  repeat' first
    | exact LogAll.pure _
    | exact LogAll.fatalf _ h3
    | exact LogAll.osCall _ _ (h1 _)
    | exact LogAll.runCmd _ _ _ (h2 _)
    | refine LogAll.bind ?_ (fun _ => ?_)
    | split

/-- The events `runChroot` can log. -/
theorem runChroot_logAll {P : Event → Prop} (env : Env) (d u : String) (c : List String)
    (h1 : ∀ t, P (Event.stdout t)) (h2 : ∀ b, P (Event.exec "chroot" (chrootArgs d u c) b))
    (h3 : ∀ t, P (Event.stderr t)) : LogAll P (runChroot env d u c) := by
  unfold runChroot
  simp only [bind_eq, pure_eq]
  repeat' first
    | exact LogAll.pure _
    | exact LogAll.fatalf _ h3
    | exact LogAll.emit (h1 _)
    | exact LogAll.runCmd _ _ _ h2
    | refine LogAll.bind ?_ (fun _ => ?_)
    | split

/-- The events `setupResolvConf` can log: no command is run. -/
theorem setupResolvConf_logAll {P : Event → Prop} (env : Env) (d : String)
    (h : ∀ e, (∀ n a b, e ≠ Event.exec n a b) → P e) : LogAll P (setupResolvConf env d) := by
  unfold setupResolvConf
  simp only [bind_eq, pure_eq]
  repeat' first
    | exact LogAll.pure _
    | exact LogAll.fatalf _ (fun t => h _ (by simp))
    | exact LogAll.emit (h _ (by simp))
    | exact LogAll.osCall _ _ (fun b => h _ (by simp))
    | exact LogAll.osStat _ _ (fun b => h _ (by simp))
    | exact LogAll.osOpen _ _ (fun b => h _ (by simp))
    | exact LogAll.osCreate _ _ (fun b => h _ (by simp))
    | refine LogAll.bind ?_ (fun _ => ?_)
    | split

/-- The events `umountEssentials` can log. -/
theorem umountEssentials_logAll {P : Event → Prop} (env : Env) (d : String)
    (h1 : ∀ t, P (Event.stdout t)) (h2 : ∀ a b, P (Event.exec "umount" a b))
    (h3 : ∀ t, P (Event.stderr t)) : LogAll P (umountEssentials env d) := by
  unfold umountEssentials
  apply LogAll.forEach
  intro x
  simp only [bind_eq, pure_eq]
  repeat' first
    | exact LogAll.emit (h1 _)
    | exact LogAll.emit (h3 _)
    | exact LogAll.runCmd _ _ _ (h2 _)
    | refine LogAll.bind ?_ (fun _ => ?_)
    | split

/-! ## `main`, check by check -/

theorem main_help (env : Env) (o : Opts) (fs : FS) (h : o.showHelp = true) :
    main env o fs = ⟨Res.exit 0, fs, [Event.stdout helpText]⟩ := by
  unfold main
  simp only [h, if_true, bind_eq, bind_assoc, printHelp, printf, emit_bind]
  rfl

theorem main_noargs (env : Env) (o : Opts) (fs : FS) (h : o.showHelp = false)
    (ha : o.args.length < 1) :
    main env o fs = ⟨Res.exit 1, fs, [Event.stderr "error: No chroot directory specified\n"]⟩ := by
  unfold main
  simp only [h, ha, if_true, bind_eq, pure_eq, bind_assoc, pure_bind_apply, fatalf_bind,
    Bool.false_eq_true, if_false]
  rfl

theorem main_notroot (env : Env) (o : Opts) (fs : FS) (h : o.showHelp = false)
    (ha : ¬ o.args.length < 1) (he : env.euid ≠ 0) :
    main env o fs = ⟨Res.exit 1, fs, [Event.stderr "error: This program must be run as root\n"]⟩ := by
  unfold main
  simp only [h, ha, he, if_true, if_false, bind_eq, pure_eq, bind_assoc,
    pure_bind_apply, fatalf_bind, ne_eq, not_false_eq_true, Bool.false_eq_true]
  rfl

theorem main_nodir (env : Env) (o : Opts) (fs : FS) (h : o.showHelp = false)
    (ha : ¬ o.args.length < 1) (he : env.euid = 0)
    (hs : stat fs env.cwd (o.args.headD "") = Except.error Errno.ENOENT) :
    main env o fs = ⟨Res.exit 1, fs, [Event.stat (o.args.headD "") false,
      Event.stderr ("error: " ++ ("Chroot directory does not exist: " ++ o.args.headD "") ++ "\n")]⟩ := by
  unfold main
  simp only [h, ha, he, if_true, if_false, bind_eq, pure_eq, bind_assoc, Bool.false_eq_true,
    pure_bind_apply, fatalf_bind, ne_eq, not_true_eq_false, osStat_bind, hs, isNotExist,
    decide_True, after_mk, List.singleton_append]

theorem main_run (env : Env) (o : Opts) (fs : FS) (h : o.showHelp = false)
    (ha : ¬ o.args.length < 1) (he : env.euid = 0)
    (hs : stat fs env.cwd (o.args.headD "") ≠ Except.error Errno.ENOENT) :
    main env o fs =
      (lifecycle env (o.args.headD "") o.userSpec o.skipResolvConf (commandOf o) fs).after
        [Event.stat (o.args.headD "")
          (match stat fs env.cwd (o.args.headD "") with
           | Except.ok _ => true
           | Except.error _ => false)] := by
  unfold main lifecycle commandOf
  simp only [h, ha, he, if_true, if_false, bind_eq, pure_eq, bind_assoc, Bool.false_eq_true,
    pure_bind_apply, fatalf_bind, ne_eq, not_true_eq_false, osStat_bind, withDefer]
  cases hst : stat fs env.cwd (o.args.headD "") with
  | ok n =>
    simp only [isNotExist, Bool.false_eq_true, if_false, pure_bind_apply]
    cases o.skipResolvConf <;> simp
  | error e =>
    have hne : e ≠ Errno.ENOENT := fun hh => hs (by rw [hst, hh])
    simp only [isNotExist, hne, decide_False, Bool.false_eq_true, if_false, pure_bind_apply]
    cases o.skipResolvConf <;> simp

/-! ## C6: the checks come before any action -/

/-- C6: in a run without `-h` in which the directory argument is missing, or
the effective user is not root, or the directory does not exist (`os.Stat`
reports `ENOENT`), `main` ends the process with status 1, the last thing it
does is to write a line that starts with `error: ` to the error stream, the file
system is as it was, and nothing it did before is an action (no directory made,
no command run, no link, file or removal): the log is that line alone, or the
failed `stat` and that line. -/
theorem precondition_failure_no_effects (env : Env) (o : Opts) (fs : FS)
    (hh : o.showHelp = false)
    (hc : o.args = [] ∨ env.euid ≠ 0 ∨
      stat fs env.cwd (o.args.headD "") = Except.error Errno.ENOENT) :
    (main env o fs).res = Res.exit 1 ∧
    (main env o fs).fs = fs ∧
    (∃ msg, (main env o fs).log = [Event.stderr ("error: " ++ msg ++ "\n")] ∨
      (main env o fs).log =
        [Event.stat (o.args.headD "") false, Event.stderr ("error: " ++ msg ++ "\n")]) ∧
    (∀ e ∈ (main env o fs).log, e.isAction = false) := by
  by_cases ha : o.args.length < 1
  · rw [main_noargs env o fs hh ha]
    exact ⟨rfl, rfl, ⟨"No chroot directory specified", Or.inl rfl⟩, by simp [Event.isAction]⟩
  · by_cases he : env.euid = 0
    · have hs : stat fs env.cwd (o.args.headD "") = Except.error Errno.ENOENT := by
        rcases hc with h1 | h2 | h3
        · simp [h1] at ha
        · exact absurd he h2
        · exact h3
      rw [main_nodir env o fs hh ha he hs]
      exact ⟨rfl, rfl, ⟨_, Or.inr rfl⟩, by simp [Event.isAction]⟩
    · rw [main_notroot env o fs hh ha he]
      exact ⟨rfl, rfl, ⟨"This program must be run as root", Or.inl rfl⟩,
        by simp [Event.isAction]⟩

/-- C6 at three concrete runs: no argument; not root; `/mnt/y` does not exist. -/
theorem precondition_failure_no_effects_witness :
    ((⟨"", false, false, []⟩ : Opts).showHelp = false ∧
      (main envOk ⟨"", false, false, []⟩ hostFS).res = Res.exit 1) ∧
    (main envUser optsX hostFS).log =
      [Event.stderr "error: This program must be run as root\n"] ∧
    (main envOk ⟨"", false, false, ["/mnt/y"]⟩ hostFS).log =
      [Event.stat "/mnt/y" false,
       Event.stderr "error: Chroot directory does not exist: /mnt/y\n"] :=
  ⟨⟨rfl, (precondition_failure_no_effects envOk ⟨"", false, false, []⟩ hostFS rfl
    (Or.inl rfl)).1⟩, by decide, by decide⟩

/-! ## `mountEssentials` -/

theorem mountEssentials_eq (env : Env) (d : String) :
    mountEssentials env d = forEach ["proc", "sys", "dev"] (mountStep env d) := by
  unfold mountEssentials
  refine congrArg (forEach ["proc", "sys", "dev"]) ?_
  funext name fs
  simp only [bind_eq, pure_eq, osMkdirAll, osCall_bind, mountStep]
  cases mkdirAll fs env.cwd (d ++ "/" ++ name) with
  | error e => simp
  | ok fs1 =>
    simp only [pure_bind_apply, runCmd_bind]
    cases env.cmd "mount" ["--bind", "/" ++ name, d ++ "/" ++ name] <;> simp

theorem mountStep_ret {env : Env} {d name : String} {fs : FS}
    (h : (mountStep env d name fs).res = Res.ret ()) :
    (mountStep env d name fs).log = [Event.mkdirAll (d ++ "/" ++ name) true,
        Event.exec "mount" ["--bind", "/" ++ name, d ++ "/" ++ name] true] := by
  unfold mountStep at h ⊢
  cases h1 : mkdirAll fs env.cwd (d ++ "/" ++ name) with
  | error e => simp [h1] at h
  | ok fs1 =>
    simp only [h1] at h ⊢
    cases h2 : env.cmd "mount" ["--bind", "/" ++ name, d ++ "/" ++ name] with
    | some err => simp [h2] at h
    | none => rfl

theorem mountStep_exit {env : Env} {d name : String} {fs : FS} {c : Nat}
    (h : (mountStep env d name fs).res = Res.exit c) :
    c = 1 ∧ ∃ e ∈ (mountStep env d name fs).log, e.failed = true := by
  unfold mountStep at h ⊢
  cases h1 : mkdirAll fs env.cwd (d ++ "/" ++ name) with
  | error e =>
    simp only [h1, Res.exit.injEq] at h ⊢
    exact ⟨h.symm, _, List.mem_cons_self _ _, rfl⟩
  | ok fs1 =>
    simp only [h1] at h ⊢
    cases h2 : env.cmd "mount" ["--bind", "/" ++ name, d ++ "/" ++ name] with
    | some err =>
      simp only [h2, Res.exit.injEq] at h ⊢
      exact ⟨h.symm, _, List.mem_cons_of_mem _ (List.mem_cons_self _ _), rfl⟩
    | none => simp [h2] at h

theorem res_cases {α : Type} (s : Step α) : (∃ a, s.res = Res.ret a) ∨ ∃ c, s.res = Res.exit c := by
  cases h : s.res with
  | ret a => exact Or.inl ⟨a, rfl⟩
  | exit c => exact Or.inr ⟨c, rfl⟩

/-- When `mountEssentials` returns, its log is the three rounds in full: each
directory ensured and each bind mount run, all with success. -/
theorem mountEssentials_ret {env : Env} {d : String} {fs : FS}
    (h : (mountEssentials env d fs).res = Res.ret ()) :
    (mountEssentials env d fs).log =
      [Event.mkdirAll (d ++ "/proc") true,
       Event.exec "mount" ["--bind", "/proc", d ++ "/proc"] true,
       Event.mkdirAll (d ++ "/sys") true,
       Event.exec "mount" ["--bind", "/sys", d ++ "/sys"] true,
       Event.mkdirAll (d ++ "/dev") true,
       Event.exec "mount" ["--bind", "/dev", d ++ "/dev"] true] := by
  rw [mountEssentials_eq] at h ⊢
  simp only [forEach] at h ⊢
  rcases res_cases (mountStep env d "proc" fs) with ⟨_, h1⟩ | ⟨c, h1⟩
  swap
  · rw [bind_exit h1] at h; cases h
  rw [bind_ret h1] at h ⊢
  rcases res_cases (mountStep env d "sys" (mountStep env d "proc" fs).fs) with ⟨_, h2⟩ | ⟨c, h2⟩
  swap
  · rw [bind_exit h2] at h; cases h
  rw [bind_ret h2] at h ⊢
  rcases res_cases (mountStep env d "dev"
    (mountStep env d "sys" (mountStep env d "proc" fs).fs).fs) with ⟨_, h3⟩ | ⟨c, h3⟩
  swap
  · rw [bind_exit h3] at h; cases h
  rw [bind_ret h3]
  simp only [after_log, pure_apply, mountStep_ret h1, mountStep_ret h2, mountStep_ret h3,
    slash_proc, slash_sys, slash_dev]
  rfl

/-- When `mountEssentials` ends the process, the status is 1 and something it
tried has failed. -/
theorem mountEssentials_exit {env : Env} {d : String} {fs : FS} {c : Nat}
    (h : (mountEssentials env d fs).res = Res.exit c) :
    c = 1 ∧ ∃ e ∈ (mountEssentials env d fs).log, e.failed = true := by
  rw [mountEssentials_eq] at h ⊢
  simp only [forEach] at h ⊢
  rcases res_cases (mountStep env d "proc" fs) with ⟨_, h1⟩ | ⟨c1, h1⟩
  swap
  · rw [bind_exit h1] at h ⊢
    cases h
    exact mountStep_exit h1
  rw [bind_ret h1] at h ⊢
  rcases res_cases (mountStep env d "sys" (mountStep env d "proc" fs).fs) with ⟨_, h2⟩ | ⟨c2, h2⟩
  swap
  · rw [bind_exit h2] at h ⊢
    cases h
    obtain ⟨hc, e, he, hf⟩ := mountStep_exit h2
    exact ⟨hc, e, by simp [he], hf⟩
  rw [bind_ret h2] at h ⊢
  rcases res_cases (mountStep env d "dev"
    (mountStep env d "sys" (mountStep env d "proc" fs).fs).fs) with ⟨_, h3⟩ | ⟨c3, h3⟩
  swap
  · rw [bind_exit h3] at h ⊢
    cases h
    obtain ⟨hc, e, he, hf⟩ := mountStep_exit h3
    exact ⟨hc, e, by simp [he], hf⟩
  rw [bind_ret h3] at h
  cases h

/-! ## C3: the order of mounts and unmounts -/

/-- C3: when every bind mount of `mountEssentials` succeeds (it returns), the
commands it has run are exactly the bind mounts of `/proc`, `/sys`, `/dev` onto
`d/proc`, `d/sys`, `d/dev`, in this order; the commands `umountEssentials` runs
are exactly the unmounts of `d/dev`, `d/sys`, `d/proc`, in this order; and the
unmount targets are the mount targets reversed. -/
theorem mount_umount_order (env : Env) (d : String) (fs fs2 : FS)
    (h : (mountEssentials env d fs).res = Res.ret ()) :
    execsOf (mountEssentials env d fs).log =
      [("mount", ["--bind", "/proc", d ++ "/proc"]),
       ("mount", ["--bind", "/sys", d ++ "/sys"]),
       ("mount", ["--bind", "/dev", d ++ "/dev"])] ∧
    execsOf (umountEssentials env d fs2).log =
      [("umount", [d ++ "/dev"]), ("umount", [d ++ "/sys"]), ("umount", [d ++ "/proc"])] ∧
    mountTargets (mountEssentials env d fs).log = [d ++ "/proc", d ++ "/sys", d ++ "/dev"] ∧
    umountTargets (umountEssentials env d fs2).log = [d ++ "/dev", d ++ "/sys", d ++ "/proc"] ∧
    umountTargets (umountEssentials env d fs2).log =
      (mountTargets (mountEssentials env d fs).log).reverse := by
  have hu : execsOf (umountEssentials env d fs2).log =
      [("umount", [d ++ "/dev"]), ("umount", [d ++ "/sys"]), ("umount", [d ++ "/proc"])] := by
    rw [umountEssentials_apply]
    simp [execsOf_append, execsOf_umountLog]
  have hm : execsOf (mountEssentials env d fs).log =
      [("mount", ["--bind", "/proc", d ++ "/proc"]),
       ("mount", ["--bind", "/sys", d ++ "/sys"]),
       ("mount", ["--bind", "/dev", d ++ "/dev"])] := by
    rw [mountEssentials_ret h]
    rfl
  refine ⟨hm, hu, ?_, ?_, ?_⟩
  · simp [mountTargets, callsOf, hm]
  · simp [umountTargets, callsOf, hu]
  · simp [mountTargets, umountTargets, callsOf, hm, hu]

/-- C3 at `/mnt/x` on the host where every command succeeds. -/
theorem mount_umount_order_witness :
    (mountEssentials envOk "/mnt/x" hostFS).res = Res.ret () ∧
    mountTargets (mountEssentials envOk "/mnt/x" hostFS).log =
      ["/mnt/x/proc", "/mnt/x/sys", "/mnt/x/dev"] ∧
    umountTargets (umountEssentials envOk "/mnt/x" hostFS).log =
      ["/mnt/x/dev", "/mnt/x/sys", "/mnt/x/proc"] :=
  ⟨by decide,
   (mount_umount_order envOk "/mnt/x" hostFS hostFS (by decide)).2.2.1,
   (mount_umount_order envOk "/mnt/x" hostFS hostFS (by decide)).2.2.2.1⟩

/-! ## The lifecycle as a whole -/

theorem checkMountpoint_apply (d : String) (fs : FS) :
    checkMountpoint d fs = ⟨Res.ret (), fs, [Event.stdout
      ("⚠️  Warning: " ++ d ++ " is not checked as mountpoint (not implemented yet)\n")]⟩ := rfl

/-- The events the lifecycle can log. -/
theorem lifecycle_logAll {P : Event → Prop} (env : Env) (d u : String) (skip : Bool)
    (c : List String) (h1 : ∀ e, (∀ n a b, e ≠ Event.exec n a b) → P e)
    (h2 : ∀ a b, P (Event.exec "mount" a b))
    (h3 : ∀ b, P (Event.exec "chroot" (chrootArgs d u c) b))
    (h4 : ∀ a b, P (Event.exec "umount" a b)) : LogAll P (lifecycle env d u skip c) := by
  unfold lifecycle withDefer
  refine LogAll.bind (mountEssentials_logAll env d (fun _ _ => h1 _ (by simp)) h2
    (fun _ => h1 _ (by simp))) (fun _ => LogAll.bind (LogAll.bind ?_ (fun _ => LogAll.bind
      (LogAll.emit (h1 _ (by simp))) (fun _ => runChroot_logAll env d u c
        (fun _ => h1 _ (by simp)) h3 (fun _ => h1 _ (by simp)))))
    (fun _ => umountEssentials_logAll env d (fun _ => h1 _ (by simp)) h4
      (fun _ => h1 _ (by simp))))
  cases skip
  · exact setupResolvConf_logAll env d h1
  · exact LogAll.pure _

/-- The events `main` can log. -/
theorem main_logAll {P : Event → Prop} (env : Env) (o : Opts)
    (h1 : ∀ e, (∀ n a b, e ≠ Event.exec n a b) → P e)
    (h2 : ∀ a b, P (Event.exec "mount" a b))
    (h3 : ∀ b, P (Event.exec "chroot" (chrootArgs (o.args.headD "") o.userSpec (commandOf o)) b))
    (h4 : ∀ a b, P (Event.exec "umount" a b)) : LogAll P (main env o) := by
  intro fs e he
  by_cases hh : o.showHelp = true
  · rw [main_help env o fs hh] at he
    simp at he
    rw [he]; exact h1 _ (by simp)
  have hh : o.showHelp = false := by simpa using hh
  by_cases ha : o.args.length < 1
  · rw [main_noargs env o fs hh ha] at he
    simp at he
    rw [he]; exact h1 _ (by simp)
  by_cases hu : env.euid = 0
  swap
  · rw [main_notroot env o fs hh ha hu] at he
    simp at he
    rw [he]; exact h1 _ (by simp)
  by_cases hs : stat fs env.cwd (o.args.headD "") = Except.error Errno.ENOENT
  · rw [main_nodir env o fs hh ha hu hs] at he
    simp at he
    rcases he with he | he <;> rw [he] <;> exact h1 _ (by simp)
  rw [main_run env o fs hh ha hu hs] at he
  simp only [after_log, List.singleton_append, List.mem_cons] at he
  rcases he with he | he
  · rw [he]; exact h1 _ (by simp)
  · exact lifecycle_logAll env _ _ _ _ h1 h2 h3 h4 fs e he

theorem mem_callsOf {name : String} {a : List String} {log : List Event} :
    a ∈ callsOf name log ↔ ∃ b, Event.exec name a b ∈ log := by
  unfold callsOf execsOf
  simp only [List.mem_filterMap]
  constructor
  · rintro ⟨⟨n, a1⟩, ⟨e, he, hx⟩, hy⟩
    cases e <;> simp at hx
    obtain ⟨rfl, rfl⟩ := hx
    simp at hy
    obtain ⟨rfl, rfl⟩ := hy
    exact ⟨_, he⟩
  · rintro ⟨b, hb⟩
    exact ⟨(name, a), ⟨_, hb, rfl⟩, by simp⟩

theorem chrootArgs_eq (d u : String) (c : List String) :
    chrootArgs d u c = (if u = "" then [d] else ["--userspec", u, d]) ++ c := by
  unfold chrootArgs
  by_cases h : u = "" <;> simp [h]

theorem runChroot_apply (env : Env) (d u : String) (c : List String) (fs : FS) :
    runChroot env d u c fs =
      match env.cmd "chroot" (chrootArgs d u c) with
      | none => ⟨Res.ret (), env.effect "chroot" (chrootArgs d u c) fs,
          [Event.stdout ("→ Executing: chroot " ++ showArgs (chrootArgs d u c) ++ "\n"),
           Event.exec "chroot" (chrootArgs d u c) true]⟩
      | some err => ⟨Res.exit 1, env.effect "chroot" (chrootArgs d u c) fs,
          [Event.stdout ("→ Executing: chroot " ++ showArgs (chrootArgs d u c) ++ "\n"),
           Event.exec "chroot" (chrootArgs d u c) false,
           Event.stderr ("error: " ++ ("chroot failed: " ++ err) ++ "\n")]⟩ := by
  unfold runChroot
  simp only [bind_eq, pure_eq, printf, emit_bind, runCmd_bind]
  cases env.cmd "chroot" (chrootArgs d u c) <;> simp

/-! ## C5: the arguments handed to `chroot` -/

/-- C5: for the command line `-u u d c...` (`u` empty when `-u` is not given),
`runChroot`, called as `main` calls it, runs `chroot` exactly once, with
`["--userspec", u, d] ++ c'` when `u` is not empty and `[d] ++ c'` when it is,
where `c'` is `c`, or `["/bin/bash"]` when `c` is empty; and every `chroot`
command in a log of `main` has these arguments. -/
theorem chroot_argument_list (env : Env) (u d : String) (c : List String) (r h : Bool)
    (fs : FS) :
    commandOf ⟨u, r, h, d :: c⟩ = (if c = [] then ["/bin/bash"] else c) ∧
    callsOf "chroot" (runChroot env d u (commandOf ⟨u, r, h, d :: c⟩) fs).log =
      [(if u = "" then [d] else ["--userspec", u, d]) ++ (if c = [] then ["/bin/bash"] else c)] ∧
    ∀ a ∈ callsOf "chroot" (main env ⟨u, r, h, d :: c⟩ fs).log,
      a = (if u = "" then [d] else ["--userspec", u, d]) ++
        (if c = [] then ["/bin/bash"] else c) := by
  have hc : commandOf ⟨u, r, h, d :: c⟩ = (if c = [] then ["/bin/bash"] else c) := by
    unfold commandOf
    cases c <;> simp
  refine ⟨hc, ?_, ?_⟩
  · rw [runChroot_apply, chrootArgs_eq, hc]
    cases env.cmd "chroot" _ <;> simp [callsOf, execsOf]
  · intro a ha
    obtain ⟨b, hb⟩ := mem_callsOf.mp ha
    have hP := main_logAll (P := fun e => ∀ a b, e = Event.exec "chroot" a b →
        a = (if u = "" then [d] else ["--userspec", u, d]) ++
          (if c = [] then ["/bin/bash"] else c)) env ⟨u, r, h, d :: c⟩
      (fun e he a b hab => absurd hab (he _ _ _))
      (fun a b a1 b1 hab => by simp at hab)
      (fun b a1 b1 hab => by
        simp only [Event.exec.injEq, true_and] at hab
        rw [← hab.1, chrootArgs_eq, hc]
        rfl)
      (fun a b a1 b1 hab => by simp at hab)
    exact hP fs _ hb a b rfl

/-! ## `os.Exit` and the deferred unmount -/

theorem lifecycle_exit_no_umount {env : Env} {d u : String} {skip : Bool} {c : List String}
    {fs : FS} {code : Nat} (h : (lifecycle env d u skip c fs).res = Res.exit code) :
    ∀ a b, Event.exec "umount" a b ∉ (lifecycle env d u skip c fs).log := by
  intro a b hmem
  have hm : LogAll (fun e => ∀ a b, e ≠ Event.exec "umount" a b) (mountEssentials env d) :=
    mountEssentials_logAll env d (by simp) (by simp) (by simp)
  have hbody : LogAll (fun e => ∀ a b, e ≠ Event.exec "umount" a b)
      (Prog.bind (if skip then Prog.pure () else setupResolvConf env d) (fun _ =>
        Prog.bind (checkMountpoint d) (fun _ => runChroot env d u c))) := by
    refine LogAll.bind ?_ (fun _ => LogAll.bind (LogAll.emit (by simp)) (fun _ =>
      runChroot_logAll env d u c (by simp) (by simp) (by simp)))
    cases skip
    · exact setupResolvConf_logAll env d (fun e he a b => he _ _ _)
    · exact LogAll.pure _
  unfold lifecycle withDefer at h hmem
  rcases res_cases (mountEssentials env d fs) with ⟨_, h1⟩ | ⟨c1, h1⟩
  swap
  · rw [bind_exit h1] at hmem
    exact hm fs _ hmem a b rfl
  rw [bind_ret h1] at h hmem
  simp only [after_res, after_log, List.mem_append] at h hmem
  rcases hmem with hmem | hmem
  · exact hm fs _ hmem a b rfl
  generalize (mountEssentials env d fs).fs = fs1 at h hmem
  rcases res_cases (Prog.bind (if skip then Prog.pure () else setupResolvConf env d) (fun _ =>
        Prog.bind (checkMountpoint d) (fun _ => runChroot env d u c)) fs1) with ⟨_, h2⟩ | ⟨c2, h2⟩
  · rw [bind_ret h2] at h
    rw [umountEssentials_apply] at h
    simp at h
  · rw [bind_exit h2] at hmem
    exact hbody fs1 _ hmem a b rfl

/-- Whenever `main` ends the process through `os.Exit`, no `umount` has been
run: the deferred `umountEssentials` runs only when `main` returns. -/
theorem main_exit_no_umount (env : Env) (o : Opts) (fs : FS) (code : Nat)
    (h : (main env o fs).res = Res.exit code) :
    ∀ a b, Event.exec "umount" a b ∉ (main env o fs).log := by
  intro a b hmem
  by_cases hh : o.showHelp = true
  · rw [main_help env o fs hh] at hmem; simp at hmem
  have hh : o.showHelp = false := by simpa using hh
  by_cases ha : o.args.length < 1
  · rw [main_noargs env o fs hh ha] at hmem; simp at hmem
  by_cases hu : env.euid = 0
  swap
  · rw [main_notroot env o fs hh ha hu] at hmem; simp at hmem
  by_cases hs : stat fs env.cwd (o.args.headD "") = Except.error Errno.ENOENT
  · rw [main_nodir env o fs hh ha hu hs] at hmem; simp at hmem
  rw [main_run env o fs hh ha hu hs] at h hmem
  simp only [after_res, after_log, List.singleton_append, List.mem_cons] at h hmem
  rcases hmem with hmem | hmem
  · simp at hmem
  · exact lifecycle_exit_no_umount h a b hmem

/-! ## `setupResolvConf`, outcome by outcome -/

section calls
variable {β : Type}

theorem osMkdirAll_bind (env : Env) (path : String) (f : Option PathError → Prog β) (fs : FS) :
    Prog.bind (osMkdirAll env path) f fs =
      match mkdirAll fs env.cwd path with
      | Except.ok fs1 => (f none fs1).after [Event.mkdirAll path true]
      | Except.error e => (f (some e) fs).after [Event.mkdirAll path false] := by
  unfold osMkdirAll
  rw [osCall_bind]

theorem osSymlink_bind (env : Env) (old new : String) (f : Option PathError → Prog β)
    (fs : FS) :
    Prog.bind (osSymlink env old new) f fs =
      match symlink fs env.cwd old new with
      | Except.ok fs1 => (f none fs1).after [Event.symlink old new true]
      | Except.error e =>
        (f (some ⟨"symlink", new, e⟩) fs).after [Event.symlink old new false] := by
  unfold osSymlink
  rw [osCall_bind]
  cases symlink fs env.cwd old new <;> rfl

theorem osRemove_bind (env : Env) (path : String) (f : Option PathError → Prog β) (fs : FS) :
    Prog.bind (osRemove env path) f fs =
      match remove fs env.cwd path with
      | Except.ok fs1 => (f none fs1).after [Event.remove path true]
      | Except.error e => (f (some ⟨"remove", path, e⟩) fs).after [Event.remove path false] := by
  unfold osRemove
  rw [osCall_bind]
  cases remove fs env.cwd path <;> rfl

theorem ioCopy_bind (dst src : Path) (name : String) (f : Option PathError → Prog β) (fs : FS) :
    Prog.bind (ioCopy dst src name) f fs =
      match copy fs dst src with
      | Except.ok fs1 => (f none fs1).after [Event.copy true]
      | Except.error e => (f (some ⟨"read", name, e⟩) fs).after [Event.copy false] := by
  unfold ioCopy
  rw [osCall_bind]
  cases copy fs dst src <;> rfl

end calls

theorem copyHost_eq (env : Env) (d : String) (fs : FS) :
    Prog.bind (printf ("→ resolv.conf: copying " ++ "/etc/resolv.conf" ++ " → " ++
        (d ++ "/etc/resolv.conf") ++ "\n")) (fun _ =>
      Prog.bind (osOpen env "/etc/resolv.conf") (fun r =>
        match r with
        | Except.error err =>
          fatalf ("Failed to open " ++ "/etc/resolv.conf" ++ ": " ++ err.text)
        | Except.ok src =>
          Prog.bind (osCreate env (d ++ "/etc/resolv.conf")) (fun r2 =>
            match r2 with
            | Except.error err =>
              fatalf ("Failed to create " ++ (d ++ "/etc/resolv.conf") ++ ": " ++ err.text)
            | Except.ok dst =>
              Prog.bind (ioCopy dst src "/etc/resolv.conf") (fun r3 =>
                match r3 with
                | some err =>
                  Prog.bind (fatalf ("Failed to copy resolv.conf: " ++ err.text) : Prog Unit) (fun _ =>
                    printf ("→ resolv.conf: copied " ++ "/etc/resolv.conf" ++ " → " ++
                      (d ++ "/etc/resolv.conf") ++ "\n"))
                | none =>
                  Prog.bind (Prog.pure ()) (fun _ =>
                    printf ("→ resolv.conf: copied " ++ "/etc/resolv.conf" ++ " → " ++
                      (d ++ "/etc/resolv.conf") ++ "\n")))))) fs
      = copyHost env d fs := by
  unfold copyHost
  simp only [printf, emit_bind, osOpen_bind]
  cases openRead fs env.cwd "/etc/resolv.conf" with
  | error e3 => simp
  | ok src =>
    simp only [osCreate_bind]
    cases create fs env.cwd (d ++ "/etc/resolv.conf") with
    | error e4 => simp
    | ok r =>
      simp only [ioCopy_bind]
      cases copy r.2 r.1 src with
      | error e5 => simp
      | ok fs4 => simp

theorem setupResolvConf_eq (env : Env) (d : String) (fs : FS) :
    setupResolvConf env d fs = setupSteps env d fs := by
  unfold setupResolvConf setupSteps
  simp only [bind_eq, pure_eq, osMkdirAll_bind]
  cases mkdirAll fs env.cwd (d ++ "/etc") with
  | error e => simp
  | ok fs1 =>
    simp only [pure_bind_apply, osSymlink_bind]
    cases symlink fs1 env.cwd "/etc/resolv.conf" (d ++ "/etc/resolv.conf") with
    | ok fs2 => simp [printf]
    | error e1 =>
      simp only [osStat_bind, copyFallback]
      cases stat fs1 env.cwd (d ++ "/etc/resolv.conf") with
      | ok n =>
        simp only [osRemove_bind]
        cases remove fs1 env.cwd (d ++ "/etc/resolv.conf") with
        | error e2 => simp
        | ok fs3 =>
          simp only [pure_bind_apply, bind_assoc]
          rw [show ∀ (f : Unit → Prog Unit), Prog.bind (printf ("→ removed existing " ++
            (d ++ "/etc/resolv.conf") ++ "\n")) f fs3 = (f () fs3).after [Event.stdout
              ("→ removed existing " ++ (d ++ "/etc/resolv.conf") ++ "\n")] from fun f => rfl]
          rw [copyHost_eq]
          simp
      | error e6 =>
        simp only [pure_bind_apply, bind_assoc]
        rw [copyHost_eq]
        simp

/-! ## C9: the run in which everything succeeds -/

theorem mem_bind_left {α β : Type} {p : Prog α} {f : α → Prog β} {fs : FS} {e : Event}
    (h : e ∈ (p fs).log) : e ∈ (Prog.bind p f fs).log := by
  unfold Prog.bind
  cases (p fs).res <;> simp [h]

theorem mountEssentials_dichotomy (env : Env) (d : String) (fs : FS) :
    ((mountEssentials env d fs).res = Res.ret () ∧
      (mountEssentials env d fs).log =
        [Event.mkdirAll (d ++ "/proc") true,
         Event.exec "mount" ["--bind", "/proc", d ++ "/proc"] true,
         Event.mkdirAll (d ++ "/sys") true,
         Event.exec "mount" ["--bind", "/sys", d ++ "/sys"] true,
         Event.mkdirAll (d ++ "/dev") true,
         Event.exec "mount" ["--bind", "/dev", d ++ "/dev"] true]) ∨
    ∃ e ∈ (mountEssentials env d fs).log, e.failed = true := by
  rcases res_cases (mountEssentials env d fs) with ⟨_, h⟩ | ⟨c, h⟩
  · exact Or.inl ⟨h, mountEssentials_ret h⟩
  · exact Or.inr (mountEssentials_exit h).2

theorem setupResolvConf_dichotomy (env : Env) (d : String) (fs : FS) :
    ((setupResolvConf env d fs).res = Res.ret () ∧
      (setupResolvConf env d fs).log =
        [Event.mkdirAll (d ++ "/etc") true,
         Event.symlink "/etc/resolv.conf" (d ++ "/etc/resolv.conf") true,
         Event.stdout ("→ resolv.conf: symlinked " ++ "/etc/resolv.conf" ++ " → " ++
            (d ++ "/etc/resolv.conf") ++ "\n")]) ∨
    ∃ e ∈ (setupResolvConf env d fs).log, e.failed = true := by
  rw [setupResolvConf_eq]
  unfold setupSteps
  cases h1 : mkdirAll fs env.cwd (d ++ "/etc") with
  | error e => exact Or.inr ⟨_, List.mem_cons_self _ _, rfl⟩
  | ok fs1 =>
    simp only []
    cases h2 : symlink fs1 env.cwd "/etc/resolv.conf" (d ++ "/etc/resolv.conf") with
    | ok fs2 => exact Or.inl ⟨rfl, rfl⟩
    | error e =>
      exact Or.inr ⟨Event.symlink "/etc/resolv.conf" (d ++ "/etc/resolv.conf") false,
        by simp, rfl⟩

theorem runChroot_dichotomy (env : Env) (d u : String) (c : List String) (fs : FS) :
    ((runChroot env d u c fs).res = Res.ret () ∧
      (runChroot env d u c fs).log =
        [Event.stdout ("→ Executing: chroot " ++ showArgs (chrootArgs d u c) ++ "\n"),
         Event.exec "chroot" (chrootArgs d u c) true]) ∨
    ∃ e ∈ (runChroot env d u c fs).log, e.failed = true := by
  rw [runChroot_apply]
  cases env.cmd "chroot" (chrootArgs d u c) with
  | none => exact Or.inl ⟨rfl, rfl⟩
  | some err => exact Or.inr ⟨Event.exec "chroot" (chrootArgs d u c) false, by simp, rfl⟩

theorem umountLog_dichotomy (env : Env) (t : String) :
    umountLog env t =
      [Event.exec "umount" [t] true, Event.stdout ("→ Unmounted " ++ t ++ "\n")] ∨
    ∃ e ∈ umountLog env t, e.failed = true := by
  unfold umountLog
  cases env.cmd "umount" [t] with
  | none => exact Or.inl rfl
  | some err => exact Or.inr ⟨Event.exec "umount" [t] false, by simp, rfl⟩

/-- C9: run as root with the single argument `d` and no flag, and with nothing
failing (no call or command in the log has failed, so `d` exists and the
resolver link could be made), `main` returns and its log is exactly: the `stat`
of `d`; for `proc`, `sys`, `dev` in this order the directory ensured and the
bind mount of `/proc`, `/sys`, `/dev` onto it; `d/etc` ensured and the symbolic
link `d/etc/resolv.conf -> /etc/resolv.conf` made; the mountpoint warning; the
`chroot` command with arguments `[d, "/bin/bash"]`; the unmounts of `d/dev`,
`d/sys`, `d/proc` in this order.  The commands run are the three mounts, the one
`chroot`, the three unmounts. -/
theorem end_to_end_scenario (env : Env) (d : String) (fs : FS) (hroot : env.euid = 0)
    (hok : ∀ e ∈ (main env ⟨"", false, false, [d]⟩ fs).log, e.failed = false) :
    (main env ⟨"", false, false, [d]⟩ fs).res = Res.ret () ∧
    (main env ⟨"", false, false, [d]⟩ fs).log =
      [Event.stat d true,
       Event.mkdirAll (d ++ "/proc") true,
       Event.exec "mount" ["--bind", "/proc", d ++ "/proc"] true,
       Event.mkdirAll (d ++ "/sys") true,
       Event.exec "mount" ["--bind", "/sys", d ++ "/sys"] true,
       Event.mkdirAll (d ++ "/dev") true,
       Event.exec "mount" ["--bind", "/dev", d ++ "/dev"] true,
       Event.mkdirAll (d ++ "/etc") true,
       Event.symlink "/etc/resolv.conf" (d ++ "/etc/resolv.conf") true,
       Event.stdout ("→ resolv.conf: symlinked " ++ "/etc/resolv.conf" ++ " → " ++
          (d ++ "/etc/resolv.conf") ++ "\n"),
       Event.stdout ("⚠️  Warning: " ++ d ++
          " is not checked as mountpoint (not implemented yet)\n"),
       Event.stdout ("→ Executing: chroot " ++ showArgs [d, "/bin/bash"] ++ "\n"),
       Event.exec "chroot" [d, "/bin/bash"] true,
       Event.exec "umount" [d ++ "/dev"] true,
       Event.stdout ("→ Unmounted " ++ (d ++ "/dev") ++ "\n"),
       Event.exec "umount" [d ++ "/sys"] true,
       Event.stdout ("→ Unmounted " ++ (d ++ "/sys") ++ "\n"),
       Event.exec "umount" [d ++ "/proc"] true,
       Event.stdout ("→ Unmounted " ++ (d ++ "/proc") ++ "\n")] ∧
    execsOf (main env ⟨"", false, false, [d]⟩ fs).log =
      [("mount", ["--bind", "/proc", d ++ "/proc"]),
       ("mount", ["--bind", "/sys", d ++ "/sys"]),
       ("mount", ["--bind", "/dev", d ++ "/dev"]),
       ("chroot", [d, "/bin/bash"]),
       ("umount", [d ++ "/dev"]), ("umount", [d ++ "/sys"]), ("umount", [d ++ "/proc"])] := by
  have hs : stat fs env.cwd d ≠ Except.error Errno.ENOENT := by
    intro hs
    have := hok (Event.stat d false) (by
      rw [main_nodir env ⟨"", false, false, [d]⟩ fs rfl (by simp) hroot hs]
      simp)
    simp [Event.failed] at this
  have hmain := main_run env ⟨"", false, false, [d]⟩ fs rfl (by simp) hroot hs
  simp only [List.headD_cons] at hmain
  have hc : commandOf ⟨"", false, false, [d]⟩ = ["/bin/bash"] := rfl
  rw [hc] at hmain
  rw [hmain] at hok ⊢
  have hstat : (match stat fs env.cwd d with
      | Except.ok _ => true
      | Except.error _ => false) = true := by
    have := hok _ (List.mem_cons_self _ _)
    simpa [Event.failed] using this
  rw [hstat] at hok ⊢
  have hok2 : ∀ e ∈ (lifecycle env d "" false ["/bin/bash"] fs).log, e.failed = false :=
    fun e he => hok e (by simp [he])
  clear hok hmain hstat
  unfold lifecycle withDefer at hok2 ⊢
  simp only [Bool.false_eq_true, if_false, bind_assoc] at hok2 ⊢
  rcases mountEssentials_dichotomy env d fs with ⟨h1, l1⟩ | ⟨e, he, hf⟩
  swap
  · rw [hok2 e (mem_bind_left he)] at hf; cases hf
  rw [bind_ret h1] at hok2 ⊢
  generalize (mountEssentials env d fs).fs = fs1 at hok2 ⊢
  rw [l1] at hok2 ⊢
  have hok3 : ∀ e ∈ (Prog.bind (setupResolvConf env d) (fun _ =>
      Prog.bind (checkMountpoint d) (fun _ => Prog.bind (runChroot env d "" ["/bin/bash"])
        (fun _ => umountEssentials env d))) fs1).log, e.failed = false :=
    fun e he => hok2 e (by simp [he])
  clear hok2
  rcases setupResolvConf_dichotomy env d fs1 with ⟨h2, l2⟩ | ⟨e, he, hf⟩
  swap
  · rw [hok3 e (mem_bind_left he)] at hf; cases hf
  rw [bind_ret h2] at hok3 ⊢
  generalize (setupResolvConf env d fs1).fs = fs2 at hok3 ⊢
  rw [l2] at hok3 ⊢
  have hb : Prog.bind (checkMountpoint d) (fun _ => Prog.bind (runChroot env d "" ["/bin/bash"])
        (fun _ => umountEssentials env d)) fs2 =
      (Prog.bind (runChroot env d "" ["/bin/bash"]) (fun _ => umountEssentials env d) fs2).after
        [Event.stdout ("⚠️  Warning: " ++ d ++
          " is not checked as mountpoint (not implemented yet)\n")] := rfl
  rw [hb] at hok3
  have hok4 : ∀ e ∈ (Prog.bind (runChroot env d "" ["/bin/bash"])
        (fun _ => umountEssentials env d) fs2).log, e.failed = false :=
    fun e he => hok3 e (by
      simp only [after_log, List.mem_append]
      exact Or.inr (Or.inr he))
  clear hok3
  rw [hb]
  rcases runChroot_dichotomy env d "" ["/bin/bash"] fs2 with ⟨h3, l3⟩ | ⟨e, he, hf⟩
  swap
  · rw [hok4 e (mem_bind_left he)] at hf; cases hf
  rw [bind_ret h3] at hok4 ⊢
  generalize (runChroot env d "" ["/bin/bash"] fs2).fs = fs3 at hok4 ⊢
  rw [l3] at hok4 ⊢
  rw [umountEssentials_apply] at hok4 ⊢
  have ha : chrootArgs d "" ["/bin/bash"] = [d, "/bin/bash"] := rfl
  rw [ha] at hok4 ⊢
  rcases umountLog_dichotomy env (d ++ "/dev") with u1 | ⟨e, he, hf⟩
  swap
  · rw [hok4 e (by simp [he])] at hf; cases hf
  rcases umountLog_dichotomy env (d ++ "/sys") with u2 | ⟨e, he, hf⟩
  swap
  · rw [hok4 e (by simp [he])] at hf; cases hf
  rcases umountLog_dichotomy env (d ++ "/proc") with u3 | ⟨e, he, hf⟩
  swap
  · rw [hok4 e (by simp [he])] at hf; cases hf
  rw [u1, u2, u3]
  refine ⟨rfl, rfl, rfl⟩

/-- C9 at `/mnt/x` on the host where every command succeeds: nothing fails, the
commands are the claimed ones, and the file system is left with the three mount
points, `/mnt/x/etc` and the link. -/
theorem end_to_end_scenario_witness :
    envOk.euid = 0 ∧
    (∀ e ∈ (main envOk ⟨"", false, false, ["/mnt/x"]⟩ hostFS).log, e.failed = false) ∧
    execsOf (main envOk ⟨"", false, false, ["/mnt/x"]⟩ hostFS).log =
      [("mount", ["--bind", "/proc", "/mnt/x/proc"]),
       ("mount", ["--bind", "/sys", "/mnt/x/sys"]),
       ("mount", ["--bind", "/dev", "/mnt/x/dev"]),
       ("chroot", ["/mnt/x", "/bin/bash"]),
       ("umount", ["/mnt/x/dev"]), ("umount", ["/mnt/x/sys"]), ("umount", ["/mnt/x/proc"])] ∧
    (main envOk ⟨"", false, false, ["/mnt/x"]⟩ hostFS).fs =
      (["mnt", "x", "etc", "resolv.conf"], Node.link "/etc/resolv.conf") ::
      (["mnt", "x", "etc"], Node.dir) :: (["mnt", "x", "dev"], Node.dir) ::
      (["mnt", "x", "sys"], Node.dir) :: (["mnt", "x", "proc"], Node.dir) :: hostFS :=
  ⟨rfl, by decide,
   (end_to_end_scenario envOk "/mnt/x" hostFS rfl (by decide)).2.2, by decide⟩

/-! ## C1, C2: a fatal error after the mounts -/

/-- C1, evaluated: on the host where every command succeeds except `chroot`,
`fast-chroot /mnt/x` mounts the three file systems, runs `chroot`, which fails,
and ends with status 1 without running any `umount`. -/
theorem chroot_failure_runs_no_umount :
    (main envChrootFails optsX hostFS).res = Res.exit 1 ∧
    mountTargets (main envChrootFails optsX hostFS).log =
      ["/mnt/x/proc", "/mnt/x/sys", "/mnt/x/dev"] ∧
    Event.exec "chroot" ["/mnt/x", "/bin/bash"] false ∈ (main envChrootFails optsX hostFS).log ∧
    umountTargets (main envChrootFails optsX hostFS).log = [] := by
  decide

/-- C2, evaluated: (a) when the bind mount onto `/mnt/x/sys` fails after the one
onto `/mnt/x/proc` has succeeded, and (b) when the resolver cannot be set up
after all three mounts have succeeded (the target has a `resolv.conf`, the host
has none to copy), `main` ends with status 1 without running any `umount`. -/
theorem setup_failure_runs_no_umount :
    ((main envSysMountFails optsX hostFS).res = Res.exit 1 ∧
      Event.exec "mount" ["--bind", "/proc", "/mnt/x/proc"] true
        ∈ (main envSysMountFails optsX hostFS).log ∧
      umountTargets (main envSysMountFails optsX hostFS).log = []) ∧
    ((main envOk optsX noHostResolvFS).res = Res.exit 1 ∧
      mountTargets (main envOk optsX noHostResolvFS).log =
        ["/mnt/x/proc", "/mnt/x/sys", "/mnt/x/dev"] ∧
      Event.exec "mount" ["--bind", "/dev", "/mnt/x/dev"] true
        ∈ (main envOk optsX noHostResolvFS).log ∧
      Event.openRead "/etc/resolv.conf" false ∈ (main envOk optsX noHostResolvFS).log ∧
      umountTargets (main envOk optsX noHostResolvFS).log = []) := by
  decide

/-! ## The file-system model: entries -/

theorem lookup_cons_eq (q k : Path) (v : Node) (fs : FS) :
    List.lookup q ((k, v) :: fs) = if q = k then some v else List.lookup q fs := by
  rw [List.lookup_cons]
  by_cases h : q = k
  · subst h; simp
  · have : (q == k) = false := by simpa using h
    simp [this, h]

theorem lookup_filter_ne (fs : FS) (p q : Path) :
    List.lookup q (fs.filter (fun e => e.1 ≠ p)) = if q = p then none else List.lookup q fs := by
  induction fs with
  | nil => simp
  | cons e fs ih =>
    obtain ⟨k, v⟩ := e
    by_cases hk : k = p
    · subst hk
      simp only [ne_eq, not_true_eq_false, decide_False, Bool.false_eq_true, not_false_eq_true,
        List.filter_cons_of_neg, ih, lookup_cons_eq]
      by_cases hq : q = k <;> simp [hq]
    · simp only [ne_eq, hk, not_false_eq_true, decide_True, List.filter_cons_of_pos,
        lookup_cons_eq, ih]
      by_cases hq : q = k
      · subst hq
        simp [hk]
      · simp [hq]

theorem get_root (fs : FS) : fs.get [] = some Node.dir := by
  simp [FS.get]

theorem get_erase (fs : FS) (p q : Path) :
    (fs.erase p).get q = if q = p ∧ q ≠ [] then none else fs.get q := by
  unfold FS.get FS.erase
  by_cases hq : q = []
  · simp [hq]
  · simp only [hq, if_false, lookup_filter_ne]
    by_cases h : q = p
    · subst h; simp [hq]
    · simp [h]

theorem get_set (fs : FS) (p q : Path) (n : Node) :
    (fs.set p n).get q = if q = [] then some Node.dir else if q = p then some n else fs.get q := by
  by_cases hq : q = []
  · simp [hq, FS.get]
  · have h2 := get_erase fs p q
    unfold FS.get at h2 ⊢
    unfold FS.set
    simp only [hq, if_false, lookup_cons_eq] at h2 ⊢
    by_cases h : q = p
    · simp [h]
    · simp only [h, if_false, false_and] at h2 ⊢
      exact h2

theorem get_set_self (fs : FS) (p : Path) (n : Node) (hp : p ≠ []) :
    (fs.set p n).get p = some n := by
  simp [get_set, hp]

theorem get_set_ne (fs : FS) (p q : Path) (n : Node) (h : q ≠ p) :
    (fs.set p n).get q = fs.get q := by
  rw [get_set]
  by_cases hq : q = []
  · simp [hq, get_root]
  · simp [hq, h]

theorem get_erase_ne (fs : FS) (p q : Path) (h : q ≠ p) : (fs.erase p).get q = fs.get q := by
  simp [get_erase, h]

theorem get_erase_self (fs : FS) (p : Path) (hp : p ≠ []) : (fs.erase p).get p = none := by
  simp [get_erase, hp]

/-! ## The file-system model: path strings -/

theorem splitSlash_ne_nil (s : List Char) : splitSlash s ≠ [] := by
  cases s with
  | nil => simp [splitSlash]
  | cons c cs =>
    unfold splitSlash
    by_cases h : c = '/'
    · simp [h]
    · simp only [h, if_false]
      cases splitSlash cs <;> simp

theorem splitSlash_append (a b : List Char) :
    splitSlash (a ++ '/' :: b) = splitSlash a ++ splitSlash b := by
  induction a with
  | nil => simp [splitSlash]
  | cons c a ih =>
    simp only [List.cons_append]
    by_cases h : c = '/'
    · simp [splitSlash, h, ih]
    · have hne := splitSlash_ne_nil a
      simp only [splitSlash, h, if_false, ih]
      cases hs : splitSlash a with
      | nil => exact absurd hs hne
      | cons x xs => simp

theorem splitSlash_noslash (n : List Char) (h : ∀ c ∈ n, c ≠ '/') : splitSlash n = [n] := by
  induction n with
  | nil => rfl
  | cons c n ih =>
    have hc : c ≠ '/' := h c (List.mem_cons_self _ _)
    have := ih (fun x hx => h x (List.mem_cons_of_mem _ hx))
    simp [splitSlash, hc, this]

theorem comps_child (d name : String) (h : ∀ c ∈ name.data, c ≠ '/') :
    comps (d ++ "/" ++ name) = comps d ++ [name] := by
  unfold comps
  have : (d ++ "/" ++ name).data = d.data ++ '/' :: name.data := by
    simp [String.data_append]
  rw [this, splitSlash_append, splitSlash_noslash _ h]
  simp

theorem comps_slash (d : String) : comps (d ++ "/") = comps d ++ [""] := by
  unfold comps
  have : (d ++ "/").data = d.data ++ '/' :: [] := by
    simp [String.data_append]
  rw [this, splitSlash_append]
  simp [splitSlash]

theorem comps_resolv (d : String) :
    comps (d ++ "/etc/resolv.conf") = comps d ++ ["etc", "resolv.conf"] := by
  have h1 : d ++ "/etc/resolv.conf" = (d ++ "/" ++ "etc") ++ "/" ++ "resolv.conf" := by
    simp only [String.append_assoc]
    rfl
  rw [h1, comps_child _ _ (by decide), comps_child _ _ (by decide)]
  simp

theorem comps_etc (d : String) : comps (d ++ "/etc") = comps d ++ ["etc"] := by
  have h1 : d ++ "/etc" = d ++ "/" ++ "etc" := by
    simp only [String.append_assoc]
    rfl
  rw [h1, comps_child _ _ (by decide)]

theorem isAbs_append (d s : String) (h : d ≠ "") : isAbs (d ++ s) = isAbs d := by
  unfold isAbs
  have hd : d.data ≠ [] := fun hh => h (by
    cases d
    simp_all)
  cases hl : d.data with
  | nil => exact absurd hl hd
  | cons c cs => simp [String.data_append, hl]

theorem append_ne_empty (d s : String) (h : d ≠ "") : d ++ s ≠ "" := by
  intro hh
  have : (d ++ s).data = [] := by rw [hh]
  simp [String.data_append] at this
  apply h
  cases d
  simp_all

theorem append_ne_empty_right (d s : String) (h : s ≠ "") : d ++ s ≠ "" := by
  intro hh
  have : (d ++ s).data = [] := by rw [hh]
  simp [String.data_append] at this
  apply h
  cases s
  simp_all

/-! ## The file-system model: path resolution -/

theorem walk_eq (fs : FS) (fl : Bool) (n : Nat) (cur : Path) (rest : List String) :
    walk fs fl n cur rest =
      match walkSeg fs fl cur rest with
      | Seg.done p => Except.ok (n, p)
      | Seg.fail e => Except.error e
      | Seg.follow b r =>
        match n with
        | 0 => Except.error Errno.ELOOP
        | k + 1 => walk fs fl k b r := by
  cases n <;> simp only [walk]

theorem walkSeg_nil (fs : FS) (fl : Bool) (cur : Path) : walkSeg fs fl cur [] = Seg.done cur := by
  simp [walkSeg]

theorem walkSeg_cons (fs : FS) (fl : Bool) (cur : Path) (name : String) (rest : List String) :
    walkSeg fs fl cur (name :: rest) =
      if name = "" ∨ name = "." then walkSeg fs fl cur rest
      else if name = ".." then walkSeg fs fl cur.dropLast rest
      else
        match fs.get (cur ++ [name]) with
        | none => if rest = [] then Seg.done (cur ++ [name]) else Seg.fail Errno.ENOENT
        | some Node.dir => walkSeg fs fl (cur ++ [name]) rest
        | some (Node.file _) =>
          if rest = [] then Seg.done (cur ++ [name]) else Seg.fail Errno.ENOTDIR
        | some (Node.link t) =>
          if rest = [] ∧ fl = false then Seg.done (cur ++ [name])
          else if t = "" then Seg.fail Errno.ENOENT
          else Seg.follow (if isAbs t then [] else cur) (comps t ++ rest) := by
  rw [walkSeg]

theorem walkSeg_proper (fs : FS) (fl : Bool) (cur : Path) (name : String) (rest : List String)
    (h : ProperName name) :
    walkSeg fs fl cur (name :: rest) =
      match fs.get (cur ++ [name]) with
      | none => if rest = [] then Seg.done (cur ++ [name]) else Seg.fail Errno.ENOENT
      | some Node.dir => walkSeg fs fl (cur ++ [name]) rest
      | some (Node.file _) =>
        if rest = [] then Seg.done (cur ++ [name]) else Seg.fail Errno.ENOTDIR
      | some (Node.link t) =>
        if rest = [] ∧ fl = false then Seg.done (cur ++ [name])
        else if t = "" then Seg.fail Errno.ENOENT
        else Seg.follow (if isAbs t then [] else cur) (comps t ++ rest) := by
  rw [walkSeg_cons]
  simp [h.1, h.2.1, h.2.2]

/-- Without following the last link, a single proper name resolves to the entry
of that name in the directory, whatever it is. -/
theorem walkSeg_single_nofollow (fs : FS) (cur : Path) (name : String) (h : ProperName name) :
    walkSeg fs false cur [name] = Seg.done (cur ++ [name]) := by
  rw [walkSeg_proper fs false cur name [] h]
  cases hg : fs.get (cur ++ [name]) with
  | none => simp
  | some n => cases n <;> simp [walkSeg_nil]

theorem walkSeg_append_done (fs : FS) (fl : Bool) (ys : List String) (hy : ys ≠ []) (D : Path)
    (hD : fs.get D = some Node.dir) :
    ∀ (xs : List String) (cur : Path), walkSeg fs true cur xs = Seg.done D →
      walkSeg fs fl cur (xs ++ ys) = walkSeg fs fl D ys := by
  intro xs
  induction xs with
  | nil =>
    intro cur h
    rw [walkSeg_nil] at h
    cases h
    rfl
  | cons x xs ih =>
    intro cur h
    rw [walkSeg_cons] at h
    rw [List.cons_append, walkSeg_cons]
    by_cases h1 : x = "" ∨ x = "."
    · simp only [h1, if_true] at h ⊢
      exact ih cur h
    · simp only [h1, if_false] at h ⊢
      by_cases h2 : x = ".."
      · simp only [h2, if_true] at h ⊢
        exact ih _ h
      · simp only [h2, if_false] at h ⊢
        have hne : xs ++ ys ≠ [] := by simp [hy]
        cases hg : fs.get (cur ++ [x]) with
        | none =>
          rw [hg] at h
          simp only at h
          by_cases hx : xs = []
          · simp only [hx, if_true, Seg.done.injEq] at h
            rw [← h, hg] at hD
            cases hD
          · simp [hx] at h
        | some n =>
          rw [hg] at h
          cases n with
          | dir =>
            simp only at h ⊢
            exact ih _ h
          | file c =>
            simp only at h
            by_cases hx : xs = []
            · simp only [hx, if_true, Seg.done.injEq] at h
              rw [← h, hg] at hD
              cases hD
            · simp [hx] at h
          | link t =>
            simp only at h
            by_cases ht : t = "" <;> simp [ht] at h

theorem walkSeg_append_follow (fs : FS) (fl : Bool) (ys : List String) (hy : ys ≠ [])
    (b : Path) (r : List String) :
    ∀ (xs : List String) (cur : Path), walkSeg fs true cur xs = Seg.follow b r →
      walkSeg fs fl cur (xs ++ ys) = Seg.follow b (r ++ ys) := by
  intro xs
  induction xs with
  | nil =>
    intro cur h
    rw [walkSeg_nil] at h
    cases h
  | cons x xs ih =>
    intro cur h
    rw [walkSeg_cons] at h
    rw [List.cons_append, walkSeg_cons]
    by_cases h1 : x = "" ∨ x = "."
    · simp only [h1, if_true] at h ⊢
      exact ih cur h
    · simp only [h1, if_false] at h ⊢
      by_cases h2 : x = ".."
      · simp only [h2, if_true] at h ⊢
        exact ih _ h
      · simp only [h2, if_false] at h ⊢
        have hne : xs ++ ys ≠ [] := by simp [hy]
        cases hg : fs.get (cur ++ [x]) with
        | none =>
          rw [hg] at h
          simp only at h
          by_cases hx : xs = [] <;> simp [hx] at h
        | some n =>
          rw [hg] at h
          cases n with
          | dir =>
            simp only at h ⊢
            exact ih _ h
          | file c =>
            simp only at h
            by_cases hx : xs = [] <;> simp [hx] at h
          | link t =>
            simp only at h ⊢
            by_cases ht : t = ""
            · simp [ht] at h
            · simp only [Bool.true_eq_false, and_false, if_false, ht, Seg.follow.injEq] at h
              simp only [hne, false_and, if_false, ht, Seg.follow.injEq]
              refine ⟨h.1, ?_⟩
              rw [← h.2, List.append_assoc]

/-- Resolution is compositional: when `xs` leads to the directory `D` with `m`
links left to follow, resolving `xs ++ ys` is resolving `ys` from `D` with that
budget. -/
theorem walk_append (fs : FS) (fl : Bool) (ys : List String) (hy : ys ≠ []) (D : Path) (m : Nat)
    (hD : fs.get D = some Node.dir) :
    ∀ (n : Nat) (cur : Path) (xs : List String), walk fs true n cur xs = Except.ok (m, D) →
      walk fs fl n cur (xs ++ ys) = walk fs fl m D ys := by
  intro n
  induction n with
  | zero =>
    intro cur xs h
    rw [walk_eq] at h
    rw [walk_eq fs fl 0 cur]
    cases hs : walkSeg fs true cur xs with
    | done p =>
      rw [hs] at h
      simp only [Except.ok.injEq, Prod.mk.injEq] at h
      obtain ⟨rfl, rfl⟩ := h
      rw [walkSeg_append_done fs fl ys hy p hD xs cur hs]
      rw [walk_eq fs fl 0 p]
    | fail e => rw [hs] at h; cases h
    | follow b r => rw [hs] at h; cases h
  | succ n ih =>
    intro cur xs h
    rw [walk_eq] at h
    rw [walk_eq fs fl (n + 1) cur]
    cases hs : walkSeg fs true cur xs with
    | done p =>
      rw [hs] at h
      simp only [Except.ok.injEq, Prod.mk.injEq] at h
      obtain ⟨rfl, rfl⟩ := h
      rw [walkSeg_append_done fs fl ys hy p hD xs cur hs]
      rw [walk_eq fs fl (n + 1) p]
    | fail e => rw [hs] at h; cases h
    | follow b r =>
      rw [hs] at h
      simp only at h
      rw [walkSeg_append_follow fs fl ys hy b r xs cur hs]
      exact ih b r h

theorem walk_le (fs : FS) (fl : Bool) :
    ∀ (n : Nat) (cur : Path) (rest : List String) (m : Nat) (q : Path),
      walk fs fl n cur rest = Except.ok (m, q) → m ≤ n := by
  intro n
  induction n with
  | zero =>
    intro cur rest m q h
    rw [walk_eq] at h
    cases hs : walkSeg fs fl cur rest <;> rw [hs] at h <;> simp at h
    omega
  | succ n ih =>
    intro cur rest m q h
    rw [walk_eq] at h
    cases hs : walkSeg fs fl cur rest <;> rw [hs] at h <;> simp only at h
    · simp at h; omega
    · have := ih _ _ _ _ h
      omega
    · cases h

/-- A resolution that leaves `m` links unused succeeds as well, at the same
path, with a budget smaller by `j ≤ m`. -/
theorem walk_lower (fs : FS) (fl : Bool) :
    ∀ (n : Nat) (cur : Path) (rest : List String) (m : Nat) (q : Path) (j : Nat),
      walk fs fl n cur rest = Except.ok (m, q) → j ≤ m →
      walk fs fl (n - j) cur rest = Except.ok (m - j, q) := by
  intro n
  induction n with
  | zero =>
    intro cur rest m q j h hj
    have := walk_le fs fl 0 cur rest m q h
    have hj0 : j = 0 := by omega
    subst hj0
    simpa using h
  | succ n ih =>
    intro cur rest m q j h hj
    rw [walk_eq] at h
    rw [walk_eq]
    cases hs : walkSeg fs fl cur rest with
    | done p =>
      rw [hs] at h
      simp only [Except.ok.injEq, Prod.mk.injEq] at h
      obtain ⟨rfl, rfl⟩ := h
      rfl
    | fail e => rw [hs] at h; cases h
    | follow b r =>
      rw [hs] at h
      simp only at h ⊢
      have hm := walk_le fs fl n b r m q h
      have : n + 1 - j = (n - j) + 1 := by omega
      rw [this]
      exact ih b r m q j h hj

/-- Resolution does not look at entries it cannot pass through: when two file
systems differ only on `S`, and in the first every path of `S` is absent or a
regular file, a resolution that succeeds in the first gives the same in the
second, unless it ends on a path of `S` that is a link to follow in the
second. -/
theorem walkSeg_congr (S : Path → Prop) (fs fs1 : FS) (fl : Bool) (ha : Agree S fs fs1)
    (hi : Inert S fs) :
    ∀ (rest : List String) (cur : Path) (r : Seg), walkSeg fs fl cur rest = r →
      (∀ e, r ≠ Seg.fail e) →
      (∀ q, r = Seg.done q → S q → fl = false ∨ ∀ t, fs1.get q ≠ some (Node.link t)) →
      walkSeg fs1 fl cur rest = r := by
  intro rest
  induction rest with
  | nil =>
    intro cur r h _ _
    rw [walkSeg_nil] at h ⊢
    exact h
  | cons x xs ih =>
    intro cur r h hf hd
    rw [walkSeg_cons] at h ⊢
    by_cases h1 : x = "" ∨ x = "."
    · simp only [h1, if_true] at h ⊢
      exact ih cur r h hf hd
    · simp only [h1, if_false] at h ⊢
      by_cases h2 : x = ".."
      · simp only [h2, if_true] at h ⊢
        exact ih _ r h hf hd
      · simp only [h2, if_false] at h ⊢
        by_cases hS : S (cur ++ [x])
        · -- the entry is absent or a file in `fs`
          have hres : xs = [] ∧ r = Seg.done (cur ++ [x]) := by
            rcases hi _ hS with hg | ⟨c, hg⟩
            · rw [hg] at h
              simp only at h
              by_cases hx : xs = []
              · simp only [hx, if_true] at h
                exact ⟨hx, h.symm⟩
              · simp only [hx, if_false] at h
                exact absurd h.symm (hf _)
            · rw [hg] at h
              simp only at h
              by_cases hx : xs = []
              · simp only [hx, if_true] at h
                exact ⟨hx, h.symm⟩
              · simp only [hx, if_false] at h
                exact absurd h.symm (hf _)
          obtain ⟨hx, hr⟩ := hres
          subst hx
          rw [hr]
          cases hg1 : fs1.get (cur ++ [x]) with
          | none => simp
          | some n =>
            cases n with
            | dir => simp [walkSeg_nil]
            | file c => simp
            | link t =>
              rcases hd _ hr hS with hfl | hnl
              · simp [hfl]
              · exact absurd hg1 (hnl t)
        · rw [← ha _ hS]
          cases hg : fs.get (cur ++ [x]) with
          | none => rw [hg] at h; exact h
          | some n =>
            rw [hg] at h
            cases n with
            | dir =>
              simp only at h ⊢
              exact ih _ r h hf hd
            | file c => exact h
            | link t => exact h

theorem walk_congr (S : Path → Prop) (fs fs1 : FS) (fl : Bool) (ha : Agree S fs fs1)
    (hi : Inert S fs) :
    ∀ (n : Nat) (cur : Path) (rest : List String) (m : Nat) (q : Path),
      walk fs fl n cur rest = Except.ok (m, q) →
      (S q → fl = false ∨ ∀ t, fs1.get q ≠ some (Node.link t)) →
      walk fs1 fl n cur rest = Except.ok (m, q) := by
  intro n
  induction n with
  | zero =>
    intro cur rest m q h hq
    rw [walk_eq] at h ⊢
    cases hs : walkSeg fs fl cur rest with
    | done p =>
      rw [hs] at h
      simp only [Except.ok.injEq, Prod.mk.injEq] at h
      obtain ⟨rfl, rfl⟩ := h
      rw [walkSeg_congr S fs fs1 fl ha hi rest cur _ hs (by simp)
        (fun q hq1 hS => by cases hq1; exact hq hS)]
    | fail e => rw [hs] at h; cases h
    | follow b r => rw [hs] at h; cases h
  | succ n ih =>
    intro cur rest m q h hq
    rw [walk_eq] at h ⊢
    cases hs : walkSeg fs fl cur rest with
    | done p =>
      rw [hs] at h
      simp only [Except.ok.injEq, Prod.mk.injEq] at h
      obtain ⟨rfl, rfl⟩ := h
      rw [walkSeg_congr S fs fs1 fl ha hi rest cur _ hs (by simp)
        (fun q hq1 hS => by cases hq1; exact hq hS)]
    | fail e => rw [hs] at h; cases h
    | follow b r =>
      rw [hs] at h
      simp only at h
      rw [walkSeg_congr S fs fs1 fl ha hi rest cur _ hs (by simp) (by simp)]
      exact ih b r m q h hq

/-! ## The file-system model: paths below a directory -/

/-- The two facts every statement about a target directory starts from: the
path string `d` is not empty and resolves, links followed, to the directory `D`
with `m` links left to follow. -/
theorem resolve_child (fs : FS) (cwd : Path) (fl : Bool) (d s : String) (ys : List String)
    (hc : comps (d ++ s) = comps d ++ ys) (hy : ys ≠ []) (hd : d ≠ "") (m : Nat) (D : Path)
    (hw : walk fs true maxSymlinks (baseOf cwd d) (comps d) = Except.ok (m, D))
    (hD : fs.get D = some Node.dir) :
    resolve fs cwd fl (d ++ s) =
      match walk fs fl m D ys with
      | Except.ok r => Except.ok r.2
      | Except.error e => Except.error e := by
  unfold resolve
  rw [if_neg (append_ne_empty d s hd), isAbs_append d s hd, hc]
  unfold baseOf at hw
  rw [walk_append fs fl ys hy D m hD _ _ _ hw]

theorem dropWhile_append_all {α : Type} (p : α → Bool) (a b : List α) (h : ∀ c ∈ a, p c = true) :
    (a ++ b).dropWhile p = b.dropWhile p := by
  induction a with
  | nil => rfl
  | cons x a ih =>
    have hx := h x (List.mem_cons_self _ _)
    simp only [List.cons_append, List.dropWhile_cons, hx, if_true]
    exact ih (fun c hc => h c (List.mem_cons_of_mem _ hc))

theorem data_child (d name : String) :
    (d ++ "/" ++ name).data = d.data ++ '/' :: name.data := by
  simp [String.data_append]

theorem string_ext {a b : String} (h : a.data = b.data) : a = b := by
  cases a; cases b; simp_all

theorem reverse_child_head (d name : String) (hn : ∀ c ∈ name.data, c ≠ '/')
    (hne : name ≠ "") :
    ∃ c cs, (d ++ "/" ++ name).data.reverse = c :: cs ∧ c ≠ '/' := by
  have hd : name.data ≠ [] := fun hh => hne (string_ext hh)
  rw [data_child]
  obtain ⟨l, c, hl⟩ : ∃ l c, name.data = l ++ [c] := by
    rcases List.eq_nil_or_concat name.data with h | ⟨l, c, h⟩
    · exact absurd h hd
    · exact ⟨l, c, by simpa using h⟩
  refine ⟨c, l.reverse ++ '/' :: d.data.reverse, ?_, ?_⟩
  · rw [hl]; simp
  · exact hn c (by rw [hl]; simp)

theorem dropWhile_head_false {α : Type} (p : α → Bool) (c : α) (cs l : List α)
    (h1 : l = c :: cs) (h2 : p c = false) : l.dropWhile p = l := by
  subst h1
  simp [List.dropWhile_cons, h2]

theorem stripSlashes_child (d name : String) (hn : ∀ c ∈ name.data, c ≠ '/')
    (hne : name ≠ "") : stripSlashes (d ++ "/" ++ name) = d ++ "/" ++ name := by
  obtain ⟨c, cs, h1, h2⟩ := reverse_child_head d name hn hne
  apply string_ext
  unfold stripSlashes
  rw [dropWhile_head_false _ c cs _ h1 (by simpa using h2)]
  simp

theorem parentOf_child (d name : String) (hn : ∀ c ∈ name.data, c ≠ '/')
    (hne : name ≠ "") : parentOf (d ++ "/" ++ name) = d ++ "/" := by
  obtain ⟨c, cs, h1, h2⟩ := reverse_child_head d name hn hne
  apply string_ext
  unfold parentOf
  rw [dropWhile_head_false _ c cs _ h1 (by simpa using h2)]
  rw [data_child]
  simp only [List.reverse_append, List.reverse_cons, List.append_assoc, List.singleton_append]
  rw [dropWhile_append_all _ _ _ (fun c hc => by
    have := hn c (by simpa using hc)
    simpa using this)]
  simp [String.data_append]

theorem length_child_pos (d name : String) :
    (d ++ "/" ++ name).length = d.length + name.length + 1 := by
  rw [String.length_append, String.length_append]
  have : ("/" : String).length = 1 := rfl
  omega

theorem walk_dir_slash (fs : FS) (fl : Bool) (m : Nat) (D : Path) :
    walk fs fl m D [""] = Except.ok (m, D) := by
  rw [walk_eq, walkSeg_cons]
  simp [walkSeg_nil]

/-- Below a directory `D`, the path `d/name` resolves, the last link not
followed, to the entry `name` of `D`. -/
theorem resolve_child_nofollow (fs : FS) (cwd : Path) (d name : String)
    (hn : ∀ c ∈ name.data, c ≠ '/') (hp : ProperName name) (hd : d ≠ "") (m : Nat) (D : Path)
    (hw : walk fs true maxSymlinks (baseOf cwd d) (comps d) = Except.ok (m, D))
    (hD : fs.get D = some Node.dir) :
    resolve fs cwd false (d ++ "/" ++ name) = Except.ok (D ++ [name]) := by
  have := resolve_child fs cwd false d ("/" ++ name) [name]
    (by rw [← String.append_assoc]; exact comps_child d name hn) (by simp) hd m D hw hD
  rw [← String.append_assoc] at this
  rw [this, walk_eq, walkSeg_single_nofollow fs D name hp]

theorem stat_dir_slash (fs : FS) (cwd : Path) (d : String) (hd : d ≠ "") (m : Nat) (D : Path)
    (hw : walk fs true maxSymlinks (baseOf cwd d) (comps d) = Except.ok (m, D))
    (hD : fs.get D = some Node.dir) : stat fs cwd (d ++ "/") = Except.ok Node.dir := by
  unfold stat
  rw [resolve_child fs cwd true d "/" [""] (comps_slash d) (by simp) hd m D hw hD,
    walk_dir_slash]
  simp [hD]

/-- What `os.MkdirAll(d/name)` does when `d` is a directory `D`: it makes the
directory when `D` has no entry `name`; nothing when that entry is a directory
or a link to one; and it fails otherwise.  Whatever it changes is the entry
`name` of `D`. -/
theorem mkdirAll_child (fs : FS) (cwd : Path) (d name : String)
    (hn : ∀ c ∈ name.data, c ≠ '/') (hp : ProperName name) (hd : d ≠ "") (m : Nat) (D : Path)
    (hw : walk fs true maxSymlinks (baseOf cwd d) (comps d) = Except.ok (m, D))
    (hD : fs.get D = some Node.dir) :
    mkdirAll fs cwd (d ++ "/" ++ name) =
      match fs.get (D ++ [name]) with
      | none => Except.ok (fs.set (D ++ [name]) Node.dir)
      | some Node.dir => Except.ok fs
      | some (Node.file _) => Except.error ⟨"mkdir", d ++ "/" ++ name, Errno.ENOTDIR⟩
      | some (Node.link _) =>
        match stat fs cwd (d ++ "/" ++ name) with
        | Except.ok Node.dir => Except.ok fs
        | Except.ok _ => Except.error ⟨"mkdir", d ++ "/" ++ name, Errno.ENOTDIR⟩
        | Except.error _ => Except.error ⟨"mkdir", d ++ "/" ++ name, Errno.EEXIST⟩ := by
  have hres := resolve_child_nofollow fs cwd d name hn hp hd m D hw hD
  have hstrip := stripSlashes_child d name hn hp.1
  have hpar := parentOf_child d name hn hp.1
  have hlen := length_child_pos d name
  have hne : d ++ "/" ++ name ≠ "" := append_ne_empty_right _ _ hp.1
  -- the parent is there already
  have hparent : mkdirAllAux cwd (d.length + name.length + 1) (d ++ "/") fs = Except.ok fs := by
    rw [mkdirAllAux, stat_dir_slash fs cwd d hd m D hw hD]
  -- `mkdir` and `lstat` see the entry `name` of `D`
  have hmk : mkdir fs cwd (d ++ "/" ++ name) =
      match fs.get (D ++ [name]) with
      | some _ => Except.error Errno.EEXIST
      | none => Except.ok (fs.set (D ++ [name]) Node.dir) := by
    unfold mkdir
    rw [hstrip, if_neg (by simp [hne]), hres]
  have hls : lstat fs cwd (d ++ "/" ++ name) =
      match fs.get (D ++ [name]) with
      | none => Except.error Errno.ENOENT
      | some n => Except.ok n := by
    unfold lstat
    rw [hres]
  have hst : ∀ n, fs.get (D ++ [name]) = n → (∀ t, n ≠ some (Node.link t)) →
      stat fs cwd (d ++ "/" ++ name) =
        match n with
        | none => Except.error Errno.ENOENT
        | some n => Except.ok n := by
    intro n hg hnl
    unfold stat
    have := resolve_child fs cwd true d ("/" ++ name) [name]
      (by rw [← String.append_assoc]; exact comps_child d name hn) (by simp) hd m D hw hD
    rw [← String.append_assoc] at this
    rw [this, walk_eq, walkSeg_proper fs true D name [] hp, hg]
    cases n with
    | none => simp [hg]
    | some n =>
      cases n with
      | dir => simp [hg, walkSeg_nil]
      | file c => simp [hg]
      | link t => exact absurd rfl (hnl t)
  unfold mkdirAll
  rw [hlen, mkdirAllAux, hpar]
  have hplen : (d ++ "/").length > 0 := by
    rw [String.length_append]
    have : ("/" : String).length = 1 := rfl
    omega
  rw [if_pos hplen, hparent]
  simp only
  rw [hmk, hls]
  cases hg : fs.get (D ++ [name]) with
  | none => rw [hst _ hg (by simp)]
  | some n =>
    cases n with
    | dir => rw [hst _ hg (by simp)]
    | file c => rw [hst _ hg (by simp)]
    | link t =>
      cases hs : stat fs cwd (d ++ "/" ++ name) with
      | error e => rfl
      | ok n2 => cases n2 <;> rfl

/-! ## The counter of `mkdirAllAux` -/

theorem dropWhile_length_le {α : Type} (p : α → Bool) (l : List α) :
    (l.dropWhile p).length ≤ l.length := by
  induction l with
  | nil => simp
  | cons x l ih =>
    rw [List.dropWhile_cons]
    by_cases h : p x = true
    · simp only [h, if_true, List.length_cons]
      omega
    · simp [h]

/-- The parent `os.MkdirAll` recurses to is shorter than the path. -/
theorem parentOf_length_lt (path : String) (h : path ≠ "") :
    (parentOf path).length < path.length := by
  have hd : path.data ≠ [] := fun hh => h (by cases path; simp_all)
  have hmk : ∀ l : List Char, (String.mk l).length = l.length := fun _ => rfl
  have hplen : path.length = path.data.reverse.length := by
    rw [List.length_reverse]
    rfl
  unfold parentOf
  rw [hmk, List.length_reverse, hplen]
  cases hr : path.data.reverse with
  | nil => simp at hr; exact absurd hr hd
  | cons c cs =>
    by_cases hc : c = '/'
    · have h1 := dropWhile_length_le (fun c => decide (c ≠ '/'))
        (List.dropWhile (fun c => decide (c = '/')) cs)
      have h2 := dropWhile_length_le (fun c => decide (c = '/')) cs
      rw [List.dropWhile_cons, if_pos (by simpa using hc), List.length_cons]
      omega
    · have h1 := dropWhile_length_le (fun c => decide (c ≠ '/')) cs
      rw [List.dropWhile_cons, if_neg (by simpa using hc), List.dropWhile_cons,
        if_pos (by simpa using hc), List.length_cons]
      omega

/-- The counter of `mkdirAllAux` never runs out: any counter above the length
of the path gives the same result, so `mkdirAll` is the recursion of
`os.MkdirAll`, run to its end. -/
theorem mkdirAllAux_counter (cwd : Path) :
    ∀ (n k : Nat) (path : String) (fs : FS), path.length < n → path.length < k →
      mkdirAllAux cwd n path fs = mkdirAllAux cwd k path fs := by
  intro n
  induction n with
  | zero => intro k path fs h; omega
  | succ n ih =>
    intro k path fs hn hk
    obtain ⟨k, rfl⟩ : ∃ j, k = j + 1 := ⟨k - 1, by omega⟩
    rw [mkdirAllAux, mkdirAllAux]
    by_cases hp : (parentOf path).length > 0
    · have hne : path ≠ "" := by
        intro hh
        rw [hh] at hp
        exact absurd hp (by decide)
      have hlt := parentOf_length_lt path hne
      rw [if_pos hp, if_pos hp, ih k (parentOf path) fs (by omega) (by omega)]
    · rw [if_neg hp, if_neg hp]

/-! ## The file-system model: the calls of `setupResolvConf` on a target -/

theorem agree_set (fs : FS) (p : Path) (n : Node) : Agree (fun q => q = p) fs (fs.set p n) :=
  fun q hq => (get_set_ne fs p q n hq).symm

theorem agree_erase (fs : FS) (p : Path) : Agree (fun q => q = p) fs (fs.erase p) :=
  fun q hq => (get_erase_ne fs p q hq).symm

theorem targetDir_congr {fs fs1 : FS} {cwd : Path} {d : String} {m : Nat} {D : Path}
    (S : Path → Prop) (ha : Agree S fs fs1) (hi : Inert S fs) (h : TargetDir fs cwd d m D)
    (hS : ¬ S D) : TargetDir fs1 cwd d m D :=
  ⟨h.1, walk_congr S fs fs1 true ha hi _ _ _ _ _ h.2.1 (fun hh => absurd hh hS),
    by rw [← ha D hS]; exact h.2.2⟩

theorem hostFile_congr {fs fs1 : FS} {r : Nat} {H : Path} {X : Bytes}
    (S : Path → Prop) (ha : Agree S fs fs1) (hi : Inert S fs) (h : HostFile fs r H X)
    (hS : ¬ S H) : HostFile fs1 r H X :=
  ⟨walk_congr S fs fs1 true ha hi _ _ _ _ _ h.1 (fun hh => absurd hh hS),
    by rw [← ha H hS]; exact h.2⟩

theorem proper_etc : ProperName "etc" := by
  unfold ProperName; decide

theorem proper_resolv : ProperName "resolv.conf" := by
  unfold ProperName; decide

theorem append_two (D : Path) (a b : String) : D ++ [a] ++ [b] = D ++ [a, b] := by
  simp

section target
variable {fs : FS} {cwd : Path} {d : String} {m : Nat} {D : Path}

theorem resolve_target (fl : Bool) (h : TargetDir fs cwd d m D) :
    resolve fs cwd fl (d ++ "/etc/resolv.conf") =
      match walk fs fl m D ["etc", "resolv.conf"] with
      | Except.ok r => Except.ok r.2
      | Except.error e => Except.error e :=
  resolve_child fs cwd fl d "/etc/resolv.conf" ["etc", "resolv.conf"] (comps_resolv d)
    (by simp) h.1 m D h.2.1 h.2.2

theorem walkSeg_target (fl : Bool) (hE : fs.get (D ++ ["etc"]) = some Node.dir) :
    walkSeg fs fl D ["etc", "resolv.conf"] =
      match fs.get (D ++ ["etc", "resolv.conf"]) with
      | some (Node.link t) =>
        if fl = false then Seg.done (D ++ ["etc", "resolv.conf"])
        else if t = "" then Seg.fail Errno.ENOENT
        else Seg.follow (if isAbs t then [] else D ++ ["etc"]) (comps t ++ [])
      | _ => Seg.done (D ++ ["etc", "resolv.conf"]) := by
  rw [walkSeg_proper fs fl D "etc" _ proper_etc, hE]
  simp only
  rw [walkSeg_proper fs fl _ "resolv.conf" _ proper_resolv, append_two]
  cases hg : fs.get (D ++ ["etc", "resolv.conf"]) with
  | none => simp
  | some n => cases n <;> simp [walkSeg_nil]

/-- The last link not followed, `d/etc/resolv.conf` is the entry `resolv.conf`
of the directory `D/etc`. -/
theorem resolve_target_nofollow (h : TargetDir fs cwd d m D)
    (hE : fs.get (D ++ ["etc"]) = some Node.dir) :
    resolve fs cwd false (d ++ "/etc/resolv.conf") = Except.ok (D ++ ["etc", "resolv.conf"]) := by
  rw [resolve_target false h, walk_eq, walkSeg_target false hE]
  cases hg : fs.get (D ++ ["etc", "resolv.conf"]) with
  | none => rfl
  | some n => cases n <;> rfl

/-- Links followed, `d/etc/resolv.conf` is that entry too, unless it is a
link. -/
theorem resolve_target_follow (h : TargetDir fs cwd d m D)
    (hE : fs.get (D ++ ["etc"]) = some Node.dir)
    (hP : ∀ t, fs.get (D ++ ["etc", "resolv.conf"]) ≠ some (Node.link t)) :
    resolve fs cwd true (d ++ "/etc/resolv.conf") = Except.ok (D ++ ["etc", "resolv.conf"]) := by
  rw [resolve_target true h, walk_eq, walkSeg_target true hE]
  cases hg : fs.get (D ++ ["etc", "resolv.conf"]) with
  | none => rfl
  | some n =>
    cases n with
    | dir => rfl
    | file c => rfl
    | link t => exact absurd hg (hP t)

theorem symlink_target (old : String) (h : TargetDir fs cwd d m D)
    (hE : fs.get (D ++ ["etc"]) = some Node.dir) :
    symlink fs cwd old (d ++ "/etc/resolv.conf") =
      match fs.get (D ++ ["etc", "resolv.conf"]) with
      | some _ => Except.error Errno.EEXIST
      | none => Except.ok (fs.set (D ++ ["etc", "resolv.conf"]) (Node.link old)) := by
  unfold symlink
  rw [resolve_target_nofollow h hE]

theorem lstat_target (h : TargetDir fs cwd d m D)
    (hE : fs.get (D ++ ["etc"]) = some Node.dir) :
    lstat fs cwd (d ++ "/etc/resolv.conf") =
      match fs.get (D ++ ["etc", "resolv.conf"]) with
      | none => Except.error Errno.ENOENT
      | some n => Except.ok n := by
  unfold lstat
  rw [resolve_target_nofollow h hE]

theorem stat_target (h : TargetDir fs cwd d m D)
    (hE : fs.get (D ++ ["etc"]) = some Node.dir)
    (hP : ∀ t, fs.get (D ++ ["etc", "resolv.conf"]) ≠ some (Node.link t)) :
    stat fs cwd (d ++ "/etc/resolv.conf") =
      match fs.get (D ++ ["etc", "resolv.conf"]) with
      | none => Except.error Errno.ENOENT
      | some n => Except.ok n := by
  unfold stat
  rw [resolve_target_follow h hE hP]

theorem remove_target (h : TargetDir fs cwd d m D)
    (hE : fs.get (D ++ ["etc"]) = some Node.dir) :
    remove fs cwd (d ++ "/etc/resolv.conf") =
      match fs.get (D ++ ["etc", "resolv.conf"]) with
      | none => Except.error Errno.ENOENT
      | some Node.dir =>
        if fs.hasChild (D ++ ["etc", "resolv.conf"]) then Except.error Errno.ENOTEMPTY
        else Except.ok (fs.erase (D ++ ["etc", "resolv.conf"]))
      | some _ => Except.ok (fs.erase (D ++ ["etc", "resolv.conf"])) := by
  unfold remove
  rw [resolve_target_nofollow h hE]
  simp only
  cases hg : fs.get (D ++ ["etc", "resolv.conf"]) with
  | none => rfl
  | some n => cases n <;> simp

theorem create_target (h : TargetDir fs cwd d m D)
    (hE : fs.get (D ++ ["etc"]) = some Node.dir)
    (hP : ∀ t, fs.get (D ++ ["etc", "resolv.conf"]) ≠ some (Node.link t)) :
    create fs cwd (d ++ "/etc/resolv.conf") =
      match fs.get (D ++ ["etc", "resolv.conf"]) with
      | some Node.dir => Except.error Errno.EISDIR
      | _ => Except.ok (D ++ ["etc", "resolv.conf"],
          fs.set (D ++ ["etc", "resolv.conf"]) (Node.file [])) := by
  unfold create
  rw [resolve_target_follow h hE hP]
  simp only
  cases hg : fs.get (D ++ ["etc", "resolv.conf"]) with
  | none => rfl
  | some n =>
    cases n with
    | dir => rfl
    | file c => rfl
    | link t => exact absurd hg (hP t)

end target

theorem resolve_host {fs : FS} {r : Nat} {H : Path} {X : Bytes} (cwd : Path)
    (h : HostFile fs r H X) : resolve fs cwd true "/etc/resolv.conf" = Except.ok H := by
  unfold resolve
  have h1 := h.1
  rw [if_neg (by decide), if_pos (by decide), h1]

theorem stat_host {fs : FS} {r : Nat} {H : Path} {X : Bytes} (cwd : Path)
    (h : HostFile fs r H X) : stat fs cwd "/etc/resolv.conf" = Except.ok (Node.file X) := by
  unfold stat
  rw [resolve_host cwd h]
  simp [h.2]

theorem openRead_host {fs : FS} {r : Nat} {H : Path} {X : Bytes} (cwd : Path)
    (h : HostFile fs r H X) : openRead fs cwd "/etc/resolv.conf" = Except.ok H := by
  unfold openRead
  rw [resolve_host cwd h]
  simp [h.2]

/-- Reading through the link: when `d/etc/resolv.conf` is the link to
`/etc/resolv.conf` and fewer than 40 links are followed on the way to `d` and
to the host file together, `stat` sees the host file. -/
theorem stat_target_link {fs : FS} {cwd : Path} {d : String} {m : Nat} {D : Path} {r : Nat}
    {H : Path} {X : Bytes} (h : TargetDir fs cwd d m D)
    (hE : fs.get (D ++ ["etc"]) = some Node.dir)
    (hP : fs.get (D ++ ["etc", "resolv.conf"]) = some (Node.link "/etc/resolv.conf"))
    (hh : HostFile fs r H X) (hb : maxSymlinks < m + r) :
    stat fs cwd (d ++ "/etc/resolv.conf") = Except.ok (Node.file X) := by
  have hm := walk_le fs true _ _ _ _ _ h.2.1
  have hr := walk_le fs true _ _ _ _ _ hh.1
  obtain ⟨k, rfl⟩ : ∃ k, m = k + 1 := ⟨m - 1, by omega⟩
  have hlow := walk_lower fs true _ _ _ _ _ (maxSymlinks - k) hh.1 (by omega)
  have hk : maxSymlinks - (maxSymlinks - k) = k := by omega
  rw [hk] at hlow
  unfold stat
  rw [resolve_target true h, walk_eq, walkSeg_target true hE, hP]
  have habs : isAbs "/etc/resolv.conf" = true := by decide
  simp only [Bool.true_eq_false, if_false, habs, if_true, List.append_nil]
  rw [if_neg (by decide)]
  simp only
  rw [hlow]
  simp [hh.2]
/-! ## Resolver provisioning on a target directory -/

theorem etc_eq (d : String) : d ++ "/etc" = d ++ "/" ++ "etc" := by
  rw [String.append_assoc]; rfl

theorem path_ne_child (D : Path) (a : String) : D ≠ D ++ [a] := by
  intro h
  have := congrArg List.length h
  simp at this

theorem path_ne_child2 (D : Path) (a b : String) : D ≠ D ++ [a, b] := by
  intro h
  have := congrArg List.length h
  simp at this

theorem etc_ne_resolv (D : Path) : D ++ ["etc"] ≠ D ++ ["etc", "resolv.conf"] := by
  intro h
  have := congrArg List.length h
  simp at this

/-- Ensuring `d/etc` when the entry `etc` of `D` is absent or a directory:
`os.MkdirAll` succeeds, afterwards the entry is a directory, nothing else has
changed, and `d` and the host file resolve as before. -/
theorem mkdirAll_etc {fs : FS} {cwd : Path} {d : String} {m : Nat} {D : Path}
    (h : TargetDir fs cwd d m D)
    (hE : fs.get (D ++ ["etc"]) = none ∨ fs.get (D ++ ["etc"]) = some Node.dir) :
    ∃ fs1, mkdirAll fs cwd (d ++ "/etc") = Except.ok fs1 ∧
      TargetDir fs1 cwd d m D ∧
      fs1.get (D ++ ["etc"]) = some Node.dir ∧
      (∀ q, q ≠ D ++ ["etc"] → fs1.get q = fs.get q) ∧
      (∀ r H X, HostFile fs r H X → HostFile fs1 r H X) := by
  have hmk := mkdirAll_child fs cwd d "etc" (by decide) proper_etc h.1 m D h.2.1 h.2.2
  rw [← etc_eq] at hmk
  rcases hE with hE | hE
  · rw [hE] at hmk
    have hi : Inert (fun q => q = D ++ ["etc"]) fs := fun q hq => Or.inl (by rw [hq]; exact hE)
    refine ⟨_, hmk, targetDir_congr _ (agree_set fs _ _) hi h (path_ne_child D "etc"),
      get_set_self fs _ _ (by simp), fun q hq => get_set_ne fs _ q _ hq, ?_⟩
    intro r H X hh
    refine hostFile_congr _ (agree_set fs _ _) hi hh ?_
    intro hHE
    have := hh.2
    rw [hHE, hE] at this
    cases this
  · rw [hE] at hmk
    exact ⟨fs, hmk, h, hE, fun _ _ => rfl, fun _ _ _ hh => hh⟩

/-- Provisioning a target that has no `etc/resolv.conf`: the link is made. -/
theorem setup_fresh {env : Env} {fs : FS} {d : String} {m : Nat} {D : Path}
    (h : TargetDir fs env.cwd d m D)
    (hE : fs.get (D ++ ["etc"]) = none ∨ fs.get (D ++ ["etc"]) = some Node.dir)
    (hP : fs.get (D ++ ["etc", "resolv.conf"]) = none) :
    ∃ fs1, mkdirAll fs env.cwd (d ++ "/etc") = Except.ok fs1 ∧
      TargetDir fs1 env.cwd d m D ∧
      fs1.get (D ++ ["etc"]) = some Node.dir ∧
      fs1.get (D ++ ["etc", "resolv.conf"]) = none ∧
      (∀ r H X, HostFile fs r H X → HostFile fs1 r H X) ∧
      setupResolvConf env d fs =
        ⟨Res.ret (), fs1.set (D ++ ["etc", "resolv.conf"]) (Node.link "/etc/resolv.conf"),
          [Event.mkdirAll (d ++ "/etc") true,
           Event.symlink "/etc/resolv.conf" (d ++ "/etc/resolv.conf") true,
           Event.stdout ("→ resolv.conf: symlinked " ++ "/etc/resolv.conf" ++ " → " ++
              (d ++ "/etc/resolv.conf") ++ "\n")]⟩ := by
  obtain ⟨fs1, hmk, hT1, hE1, hfr, hhost⟩ := mkdirAll_etc h hE
  have hP1 : fs1.get (D ++ ["etc", "resolv.conf"]) = none := by
    rw [hfr _ (etc_ne_resolv D).symm]; exact hP
  refine ⟨fs1, hmk, hT1, hE1, hP1, hhost, ?_⟩
  rw [setupResolvConf_eq]
  unfold setupSteps
  rw [hmk]
  simp only
  rw [symlink_target "/etc/resolv.conf" hT1 hE1, hP1]

/-- After the link is made, the target reads as the host file. -/
theorem linked_reads_host {fs1 : FS} {cwd : Path} {d : String} {m : Nat} {D : Path} {r : Nat}
    {H : Path} {X : Bytes} (hT1 : TargetDir fs1 cwd d m D)
    (hE1 : fs1.get (D ++ ["etc"]) = some Node.dir)
    (hP1 : fs1.get (D ++ ["etc", "resolv.conf"]) = none)
    (hH1 : HostFile fs1 r H X) (hb : maxSymlinks < m + r) :
    TargetDir (fs1.set (D ++ ["etc", "resolv.conf"]) (Node.link "/etc/resolv.conf")) cwd d m D ∧
    (fs1.set (D ++ ["etc", "resolv.conf"]) (Node.link "/etc/resolv.conf")).get (D ++ ["etc"])
      = some Node.dir ∧
    HostFile (fs1.set (D ++ ["etc", "resolv.conf"]) (Node.link "/etc/resolv.conf")) r H X ∧
    lstat (fs1.set (D ++ ["etc", "resolv.conf"]) (Node.link "/etc/resolv.conf")) cwd
      (d ++ "/etc/resolv.conf") = Except.ok (Node.link "/etc/resolv.conf") ∧
    stat (fs1.set (D ++ ["etc", "resolv.conf"]) (Node.link "/etc/resolv.conf")) cwd
      (d ++ "/etc/resolv.conf") = Except.ok (Node.file X) := by
  have hi : Inert (fun q => q = D ++ ["etc", "resolv.conf"]) fs1 :=
    fun q hq => Or.inl (by rw [hq]; exact hP1)
  have hT2 := targetDir_congr _ (agree_set fs1 _ (Node.link "/etc/resolv.conf")) hi hT1
    (path_ne_child2 D "etc" "resolv.conf")
  have hE2 : (fs1.set (D ++ ["etc", "resolv.conf"]) (Node.link "/etc/resolv.conf")).get
      (D ++ ["etc"]) = some Node.dir := by
    rw [get_set_ne _ _ _ _ (etc_ne_resolv D)]; exact hE1
  have hH2 := hostFile_congr _ (agree_set fs1 _ (Node.link "/etc/resolv.conf")) hi hH1 (by
    intro hHP
    have := hH1.2
    rw [hHP, hP1] at this
    cases this)
  have hP2 := get_set_self fs1 (D ++ ["etc", "resolv.conf"]) (Node.link "/etc/resolv.conf")
    (by simp)
  refine ⟨hT2, hE2, hH2, ?_, stat_target_link hT2 hE2 hP2 hH2 hb⟩
  rw [lstat_target hT2 hE2, hP2]

/-- Provisioning a target where something that is not a link is at
`etc/resolv.conf` and can be removed, and the host file is another file: it is
removed and the host file is copied in its place. -/
theorem setup_copy {env : Env} {fs : FS} {d : String} {m : Nat} {D : Path} {r : Nat} {H : Path}
    {X : Bytes} {n : Node} (h : TargetDir fs env.cwd d m D)
    (hE : fs.get (D ++ ["etc"]) = some Node.dir)
    (hne : H ≠ D ++ ["etc", "resolv.conf"])
    (hst : stat fs env.cwd (d ++ "/etc/resolv.conf") = Except.ok n)
    (hP : ∃ k, fs.get (D ++ ["etc", "resolv.conf"]) = some k ∧ k ≠ Node.dir)
    (hT3 : TargetDir (fs.erase (D ++ ["etc", "resolv.conf"])) env.cwd d m D)
    (hH3 : HostFile (fs.erase (D ++ ["etc", "resolv.conf"])) r H X) :
    setupResolvConf env d fs =
      ⟨Res.ret (), (((fs.erase (D ++ ["etc", "resolv.conf"])).set (D ++ ["etc", "resolv.conf"])
            (Node.file [])).set (D ++ ["etc", "resolv.conf"]) (Node.file X)),
        [Event.mkdirAll (d ++ "/etc") true,
         Event.symlink "/etc/resolv.conf" (d ++ "/etc/resolv.conf") false,
         Event.stat (d ++ "/etc/resolv.conf") true,
         Event.remove (d ++ "/etc/resolv.conf") true,
         Event.stdout ("→ removed existing " ++ (d ++ "/etc/resolv.conf") ++ "\n"),
         Event.stdout ("→ resolv.conf: copying " ++ "/etc/resolv.conf" ++ " → " ++
            (d ++ "/etc/resolv.conf") ++ "\n"),
         Event.openRead "/etc/resolv.conf" true,
         Event.create (d ++ "/etc/resolv.conf") true,
         Event.copy true,
         Event.stdout ("→ resolv.conf: copied " ++ "/etc/resolv.conf" ++ " → " ++
            (d ++ "/etc/resolv.conf") ++ "\n")]⟩ := by
  obtain ⟨k, hk, hkd⟩ := hP
  have hmk := mkdirAll_child fs env.cwd d "etc" (by decide) proper_etc h.1 m D h.2.1 h.2.2
  rw [← etc_eq, hE] at hmk
  have hE3 : (fs.erase (D ++ ["etc", "resolv.conf"])).get (D ++ ["etc"]) = some Node.dir := by
    rw [get_erase_ne _ _ _ (etc_ne_resolv D)]; exact hE
  have hP3 : (fs.erase (D ++ ["etc", "resolv.conf"])).get (D ++ ["etc", "resolv.conf"]) = none :=
    get_erase_self _ _ (by simp)
  have hrm : remove fs env.cwd (d ++ "/etc/resolv.conf") =
      Except.ok (fs.erase (D ++ ["etc", "resolv.conf"])) := by
    rw [remove_target h hE, hk]
    cases k with
    | dir => exact absurd rfl hkd
    | file c => rfl
    | link t => rfl
  have hcr : create (fs.erase (D ++ ["etc", "resolv.conf"])) env.cwd (d ++ "/etc/resolv.conf") =
      Except.ok (D ++ ["etc", "resolv.conf"],
        (fs.erase (D ++ ["etc", "resolv.conf"])).set (D ++ ["etc", "resolv.conf"])
          (Node.file [])) := by
    rw [create_target hT3 hE3 (by rw [hP3]; simp), hP3]
  have hcp : copy ((fs.erase (D ++ ["etc", "resolv.conf"])).set (D ++ ["etc", "resolv.conf"])
        (Node.file [])) (D ++ ["etc", "resolv.conf"]) H =
      Except.ok (((fs.erase (D ++ ["etc", "resolv.conf"])).set (D ++ ["etc", "resolv.conf"])
        (Node.file [])).set (D ++ ["etc", "resolv.conf"]) (Node.file X)) := by
    unfold copy
    rw [get_set_ne _ _ _ _ hne, hH3.2]
  rw [setupResolvConf_eq]
  unfold setupSteps
  rw [hmk]
  simp only
  rw [symlink_target "/etc/resolv.conf" h hE, hk]
  simp only
  unfold copyFallback
  rw [hst]
  simp only
  rw [hrm]
  simp only
  unfold copyHost
  rw [openRead_host env.cwd hH3]
  simp only
  rw [hcr]
  simp only
  rw [hcp]
  rfl

theorem agree_copied (fs : FS) (P : Path) (X : Bytes) :
    Agree (fun q => q = P) fs (((fs.erase P).set P (Node.file [])).set P (Node.file X)) := by
  intro q hq
  rw [get_set_ne _ _ _ _ hq, get_set_ne _ _ _ _ hq, get_erase_ne _ _ _ hq]

/-- When the target's `etc/resolv.conf` is a regular file, that is what `lstat`
sees and what reading gives. -/
theorem target_file_reads {fsb fs5 : FS} {cwd : Path} {d : String} {m : Nat} {D : Path}
    {X : Bytes} (hT : TargetDir fsb cwd d m D) (hE : fsb.get (D ++ ["etc"]) = some Node.dir)
    (hi : Inert (fun q => q = D ++ ["etc", "resolv.conf"]) fsb)
    (ha : Agree (fun q => q = D ++ ["etc", "resolv.conf"]) fsb fs5)
    (hP : fs5.get (D ++ ["etc", "resolv.conf"]) = some (Node.file X)) :
    lstat fs5 cwd (d ++ "/etc/resolv.conf") = Except.ok (Node.file X) ∧
    readFile fs5 cwd (d ++ "/etc/resolv.conf") = Except.ok X := by
  have hT5 := targetDir_congr _ ha hi hT (path_ne_child2 D "etc" "resolv.conf")
  have hE5 : fs5.get (D ++ ["etc"]) = some Node.dir := by
    rw [← ha _ (etc_ne_resolv D)]; exact hE
  constructor
  · rw [lstat_target hT5 hE5, hP]
  · unfold readFile
    rw [stat_target hT5 hE5 (by rw [hP]; simp), hP]

/-! ## C7: what provisioning leaves at the target -/

/-- C7, amended: let `d` name an existing directory `D` in which `etc` is
absent or a directory, let the host's `/etc/resolv.conf` be a regular file with
content `X`, and let fewer than 40 symbolic links be followed on the way to `d`
and to the host file together.  (a) When `D/etc/resolv.conf` does not exist,
`setupResolvConf` returns and leaves there a symbolic link to
`/etc/resolv.conf`.  (b) When a regular file is there (so that the link cannot
be made: `EEXIST`) and it is not the host's file itself, `setupResolvConf`
returns and leaves there a regular file with content `X`.  In both cases reading
`d/etc/resolv.conf` afterwards gives `X`. -/
theorem provisioning_round_trip (env : Env) (d : String) (fs : FS) (m r : Nat) (D H : Path)
    (X : Bytes) (hT : TargetDir fs env.cwd d m D) (hH : HostFile fs r H X)
    (hb : maxSymlinks < m + r)
    (hE : fs.get (D ++ ["etc"]) = none ∨ fs.get (D ++ ["etc"]) = some Node.dir) :
    (fs.get (D ++ ["etc", "resolv.conf"]) = none →
      (setupResolvConf env d fs).res = Res.ret () ∧
      lstat (setupResolvConf env d fs).fs env.cwd (d ++ "/etc/resolv.conf") =
        Except.ok (Node.link "/etc/resolv.conf") ∧
      readFile (setupResolvConf env d fs).fs env.cwd (d ++ "/etc/resolv.conf") = Except.ok X) ∧
    (∀ Y, fs.get (D ++ ["etc", "resolv.conf"]) = some (Node.file Y) →
      fs.get (D ++ ["etc"]) = some Node.dir → H ≠ D ++ ["etc", "resolv.conf"] →
      symlink fs env.cwd "/etc/resolv.conf" (d ++ "/etc/resolv.conf") =
        Except.error Errno.EEXIST ∧
      (setupResolvConf env d fs).res = Res.ret () ∧
      lstat (setupResolvConf env d fs).fs env.cwd (d ++ "/etc/resolv.conf") =
        Except.ok (Node.file X) ∧
      readFile (setupResolvConf env d fs).fs env.cwd (d ++ "/etc/resolv.conf") = Except.ok X) := by
  constructor
  · intro hP
    obtain ⟨fs1, _, hT1, hE1, hP1, hhost, hrun⟩ := setup_fresh hT hE hP
    obtain ⟨_, _, _, hl, hs⟩ := linked_reads_host hT1 hE1 hP1 (hhost r H X hH) hb
    rw [hrun]
    refine ⟨rfl, hl, ?_⟩
    unfold readFile
    simp only
    rw [hs]
  · intro Y hP hEd hne
    have hi : Inert (fun q => q = D ++ ["etc", "resolv.conf"]) fs :=
      fun q hq => Or.inr ⟨Y, by rw [hq]; exact hP⟩
    have hst : stat fs env.cwd (d ++ "/etc/resolv.conf") = Except.ok (Node.file Y) := by
      rw [stat_target hT hEd (by rw [hP]; simp), hP]
    have hT3 := targetDir_congr _ (agree_erase fs _) hi hT (path_ne_child2 D "etc" "resolv.conf")
    have hH3 := hostFile_congr _ (agree_erase fs _) hi hH hne
    have hrun := setup_copy (n := Node.file Y) hT hEd hne hst ⟨_, hP, by simp⟩ hT3 hH3
    have hread := target_file_reads (X := X) hT hEd hi (agree_copied fs _ X)
      (get_set_self _ _ _ (by simp))
    rw [hrun]
    refine ⟨?_, rfl, hread.1, hread.2⟩
    rw [symlink_target "/etc/resolv.conf" hT hEd, hP]

/-! ## C10: provisioning twice -/

/-- C10, amended: on a fresh target (`d` an existing directory `D`, `D/etc`
absent or a directory, no `D/etc/resolv.conf`), with the host's
`/etc/resolv.conf` a regular file with content `X` and fewer than 40 links
followed on the way to `d` and to the host file together: the first
`setupResolvConf` returns and leaves the
symbolic link; the second, run on what the first left, fails to make the link,
finds the path with `os.Stat` (which follows the link to the host file),
removes it, and copies the host file; it returns, and what it leaves at
`d/etc/resolv.conf` is a regular file with content `X`, not a link. -/
theorem provisioning_twice_leaves_copy (env : Env) (d : String) (fs : FS) (m r : Nat)
    (D H : Path) (X : Bytes) (hT : TargetDir fs env.cwd d m D) (hH : HostFile fs r H X)
    (hb : maxSymlinks < m + r)
    (hE : fs.get (D ++ ["etc"]) = none ∨ fs.get (D ++ ["etc"]) = some Node.dir)
    (hP : fs.get (D ++ ["etc", "resolv.conf"]) = none) :
    (setupResolvConf env d fs).res = Res.ret () ∧
    lstat (setupResolvConf env d fs).fs env.cwd (d ++ "/etc/resolv.conf") =
      Except.ok (Node.link "/etc/resolv.conf") ∧
    (setupResolvConf env d (setupResolvConf env d fs).fs).res = Res.ret () ∧
    (setupResolvConf env d (setupResolvConf env d fs).fs).log =
      [Event.mkdirAll (d ++ "/etc") true,
       Event.symlink "/etc/resolv.conf" (d ++ "/etc/resolv.conf") false,
       Event.stat (d ++ "/etc/resolv.conf") true,
       Event.remove (d ++ "/etc/resolv.conf") true,
       Event.stdout ("→ removed existing " ++ (d ++ "/etc/resolv.conf") ++ "\n"),
       Event.stdout ("→ resolv.conf: copying " ++ "/etc/resolv.conf" ++ " → " ++
          (d ++ "/etc/resolv.conf") ++ "\n"),
       Event.openRead "/etc/resolv.conf" true,
       Event.create (d ++ "/etc/resolv.conf") true,
       Event.copy true,
       Event.stdout ("→ resolv.conf: copied " ++ "/etc/resolv.conf" ++ " → " ++
          (d ++ "/etc/resolv.conf") ++ "\n")] ∧
    lstat (setupResolvConf env d (setupResolvConf env d fs).fs).fs env.cwd
      (d ++ "/etc/resolv.conf") = Except.ok (Node.file X) ∧
    readFile (setupResolvConf env d (setupResolvConf env d fs).fs).fs env.cwd
      (d ++ "/etc/resolv.conf") = Except.ok X := by
  obtain ⟨fs1, _, hT1, hE1, hP1, hhost, hrun⟩ := setup_fresh hT hE hP
  have hH1 := hhost r H X hH
  obtain ⟨hT2, hE2, _, hl, hs⟩ := linked_reads_host hT1 hE1 hP1 hH1 hb
  have hi : Inert (fun q => q = D ++ ["etc", "resolv.conf"]) fs1 :=
    fun q hq => Or.inl (by rw [hq]; exact hP1)
  have hne : H ≠ D ++ ["etc", "resolv.conf"] := by
    intro hHP
    have := hH1.2
    rw [hHP, hP1] at this
    cases this
  have hag : Agree (fun q => q = D ++ ["etc", "resolv.conf"]) fs1
      ((fs1.set (D ++ ["etc", "resolv.conf"]) (Node.link "/etc/resolv.conf")).erase
        (D ++ ["etc", "resolv.conf"])) := by
    intro q hq
    rw [get_erase_ne _ _ _ hq, get_set_ne _ _ _ _ hq]
  have hT3 := targetDir_congr _ hag hi hT1 (path_ne_child2 D "etc" "resolv.conf")
  have hH3 := hostFile_congr _ hag hi hH1 hne
  have hrun2 := setup_copy (n := Node.file X) hT2 hE2 hne hs
    ⟨_, get_set_self _ _ _ (by simp), by simp⟩ hT3 hH3
  have hag5 : Agree (fun q => q = D ++ ["etc", "resolv.conf"]) fs1
      ((((fs1.set (D ++ ["etc", "resolv.conf"]) (Node.link "/etc/resolv.conf")).erase
        (D ++ ["etc", "resolv.conf"])).set (D ++ ["etc", "resolv.conf"]) (Node.file [])).set
          (D ++ ["etc", "resolv.conf"]) (Node.file X)) := by
    intro q hq
    rw [get_set_ne _ _ _ _ hq, get_set_ne _ _ _ _ hq, get_erase_ne _ _ _ hq,
      get_set_ne _ _ _ _ hq]
  have hread := target_file_reads (X := X) hT1 hE1 hi hag5 (get_set_self _ _ _ (by simp))
  have hfs : (setupResolvConf env d fs).fs =
      fs1.set (D ++ ["etc", "resolv.conf"]) (Node.link "/etc/resolv.conf") := by
    rw [hrun]
  rw [hfs, hrun2]
  exact ⟨by rw [hrun], hl, rfl, rfl, hread.1, hread.2⟩

/-- C7 at `/mnt/x`: on the fresh target the link is left and reads as the host
file; on the target with a `resolv.conf` of its own the copy is left. -/
theorem provisioning_round_trip_witness :
    (TargetDir hostFS envOk.cwd "/mnt/x" 40 ["mnt", "x"] ∧
      HostFile hostFS 40 ["etc", "resolv.conf"] [110, 115, 10] ∧ maxSymlinks < 40 + 40) ∧
    (lstat (setupResolvConf envOk "/mnt/x" hostFS).fs envOk.cwd ("/mnt/x" ++ "/etc/resolv.conf") =
        Except.ok (Node.link "/etc/resolv.conf") ∧
      readFile (setupResolvConf envOk "/mnt/x" hostFS).fs envOk.cwd
        ("/mnt/x" ++ "/etc/resolv.conf") = Except.ok [110, 115, 10]) ∧
    lstat (setupResolvConf envOk "/mnt/x" ownResolvFS).fs envOk.cwd
      ("/mnt/x" ++ "/etc/resolv.conf") = Except.ok (Node.file [110, 115, 10]) :=
  ⟨⟨⟨by decide, by decide, by decide⟩, ⟨by decide, by decide⟩, by decide⟩,
   ((provisioning_round_trip envOk "/mnt/x" hostFS 40 40 ["mnt", "x"] ["etc", "resolv.conf"]
      [110, 115, 10] ⟨by decide, by decide, by decide⟩ ⟨by decide, by decide⟩ (by decide)
      (Or.inl (by decide))).1 (by decide)).2,
   ((provisioning_round_trip envOk "/mnt/x" ownResolvFS 40 40 ["mnt", "x"] ["etc", "resolv.conf"]
      [110, 115, 10] ⟨by decide, by decide, by decide⟩ ⟨by decide, by decide⟩ (by decide)
      (Or.inr (by decide))).2 [49, 10] (by decide) (by decide) (by decide)).2.2.1⟩

/-- C7 as stated fails for the chroot directory `/`: on the host of `hostFS`
the target's `etc/resolv.conf` is the host's file itself, a regular file with
content `X`; the link cannot be made (`EEXIST`); `setupResolvConf` removes the
file, cannot open it to copy, and ends the process with status 1; afterwards
reading `//etc/resolv.conf` does not give `X`: the file is gone.  The same
happens through `main`. -/
theorem provisioning_root_counterexample :
    readFile hostFS envOk.cwd "/etc/resolv.conf" = Except.ok [110, 115, 10] ∧
    lstat hostFS envOk.cwd ("/" ++ "/etc/resolv.conf") = Except.ok (Node.file [110, 115, 10]) ∧
    symlink hostFS envOk.cwd "/etc/resolv.conf" ("/" ++ "/etc/resolv.conf") =
      Except.error Errno.EEXIST ∧
    (setupResolvConf envOk "/" hostFS).res = Res.exit 1 ∧
    readFile (setupResolvConf envOk "/" hostFS).fs envOk.cwd ("/" ++ "/etc/resolv.conf") ≠
      Except.ok [110, 115, 10] ∧
    (setupResolvConf envOk "/" hostFS).fs.get ["etc", "resolv.conf"] = none ∧
    (main envOk ⟨"", false, false, ["/"]⟩ hostFS).fs.get ["etc", "resolv.conf"] = none := by
  decide

/-- C10 at `/mnt/x` on the host of `hostFS`: after the first provisioning a
link, after the second a regular file with the host's content. -/
theorem provisioning_twice_leaves_copy_witness :
    (TargetDir hostFS envOk.cwd "/mnt/x" 40 ["mnt", "x"] ∧
      HostFile hostFS 40 ["etc", "resolv.conf"] [110, 115, 10] ∧
      hostFS.get (["mnt", "x"] ++ ["etc", "resolv.conf"]) = none) ∧
    lstat (setupResolvConf envOk "/mnt/x" hostFS).fs envOk.cwd ("/mnt/x" ++ "/etc/resolv.conf") =
      Except.ok (Node.link "/etc/resolv.conf") ∧
    lstat (setupResolvConf envOk "/mnt/x" (setupResolvConf envOk "/mnt/x" hostFS).fs).fs
      envOk.cwd ("/mnt/x" ++ "/etc/resolv.conf") = Except.ok (Node.file [110, 115, 10]) :=
  ⟨⟨⟨by decide, by decide, by decide⟩, ⟨by decide, by decide⟩, by decide⟩,
   (provisioning_twice_leaves_copy envOk "/mnt/x" hostFS 40 40 ["mnt", "x"]
      ["etc", "resolv.conf"] [110, 115, 10] ⟨by decide, by decide, by decide⟩
      ⟨by decide, by decide⟩ (by decide) (Or.inl (by decide)) (by decide)).2.1,
   (provisioning_twice_leaves_copy envOk "/mnt/x" hostFS 40 40 ["mnt", "x"]
      ["etc", "resolv.conf"] [110, 115, 10] ⟨by decide, by decide, by decide⟩
      ⟨by decide, by decide⟩ (by decide) (Or.inl (by decide)) (by decide)).2.2.2.2.1⟩

/-- C10 as stated fails when the 40 links the kernel follows are all used on
the way to the target (here `d` is the last of a chain of 40 links that ends at
`/mnt/x`).  The target is fresh and the host has its `/etc/resolv.conf`; the
first `setupResolvConf` returns and leaves the symbolic link.  The second fails
to make the link, but `os.Stat` does not find the path (following the link is
one link too many: `ELOOP`), so nothing is removed; `os.Create` fails the same
way, and the process ends with status 1 (the calls it has made are listed).
What is left is the symbolic link, not a regular file. -/
theorem provisioning_twice_counterexample :
    (TargetDir (chainFS 40) envOk.cwd ("/" ++ chainName 39) 0 ["mnt", "x"] ∧
      (chainFS 40).get ["mnt", "x", "etc"] = none ∧
      readFile (chainFS 40) envOk.cwd "/etc/resolv.conf" = Except.ok [110, 115, 10]) ∧
    ((setupResolvConf envOk ("/" ++ chainName 39) (chainFS 40)).res = Res.ret () ∧
      lstat (setupResolvConf envOk ("/" ++ chainName 39) (chainFS 40)).fs envOk.cwd
        ("/" ++ chainName 39 ++ "/etc/resolv.conf") = Except.ok (Node.link "/etc/resolv.conf")) ∧
    ((setupResolvConf envOk ("/" ++ chainName 39)
        (setupResolvConf envOk ("/" ++ chainName 39) (chainFS 40)).fs).res = Res.exit 1 ∧
      (setupResolvConf envOk ("/" ++ chainName 39)
        (setupResolvConf envOk ("/" ++ chainName 39) (chainFS 40)).fs).log.filter Event.isCall =
        [Event.mkdirAll ("/" ++ chainName 39 ++ "/etc") true,
         Event.symlink "/etc/resolv.conf" ("/" ++ chainName 39 ++ "/etc/resolv.conf") false,
         Event.stat ("/" ++ chainName 39 ++ "/etc/resolv.conf") false,
         Event.openRead "/etc/resolv.conf" true,
         Event.create ("/" ++ chainName 39 ++ "/etc/resolv.conf") false] ∧
      lstat (setupResolvConf envOk ("/" ++ chainName 39)
        (setupResolvConf envOk ("/" ++ chainName 39) (chainFS 40)).fs).fs envOk.cwd
        ("/" ++ chainName 39 ++ "/etc/resolv.conf") = Except.ok (Node.link "/etc/resolv.conf")) :=
  ⟨⟨⟨by decide, by decide, by decide⟩, by decide, by decide⟩, ⟨by decide, by decide⟩,
    by decide, by decide, by decide⟩

/-! ## Why C7 and C10 need their provisos -/

/-- When the target's `etc` is a regular file, `os.MkdirAll` fails and
`setupResolvConf` ends the process with status 1, leaving no `resolv.conf`. -/
theorem provisioning_needs_etc_directory :
    TargetDir etcFileFS envOk.cwd "/mnt/x" 40 ["mnt", "x"] ∧
    etcFileFS.get ["mnt", "x", "etc", "resolv.conf"] = none ∧
    (setupResolvConf envOk "/mnt/x" etcFileFS).res = Res.exit 1 ∧
    (setupResolvConf envOk "/mnt/x" etcFileFS).fs = etcFileFS :=
  ⟨⟨by decide, by decide, by decide⟩, by decide, by decide, by decide⟩

/-- When the 40 links the kernel follows are all used on the way to the target
directory (here through a chain of 40 links that ends at `/mnt/x`), the
resolver link is made, but reading through it fails with `ELOOP`; and a second
`setupResolvConf` finds nothing with `os.Stat`, removes nothing, cannot create
the copy, and ends the process with status 1, leaving the link. -/
theorem provisioning_needs_link_budget :
    TargetDir (chainFS 40) envOk.cwd ("/" ++ chainName 39) 0 ["mnt", "x"] ∧
    HostFile (chainFS 40) 40 ["etc", "resolv.conf"] [110, 115, 10] ∧
    lstat (setupResolvConf envOk ("/" ++ chainName 39) (chainFS 40)).fs envOk.cwd
      ("/" ++ chainName 39 ++ "/etc/resolv.conf") = Except.ok (Node.link "/etc/resolv.conf") ∧
    readFile (setupResolvConf envOk ("/" ++ chainName 39) (chainFS 40)).fs envOk.cwd
      ("/" ++ chainName 39 ++ "/etc/resolv.conf") = Except.error Errno.ELOOP ∧
    (setupResolvConf envOk ("/" ++ chainName 39)
      (setupResolvConf envOk ("/" ++ chainName 39) (chainFS 40)).fs).res = Res.exit 1 ∧
    lstat (setupResolvConf envOk ("/" ++ chainName 39)
      (setupResolvConf envOk ("/" ++ chainName 39) (chainFS 40)).fs).fs envOk.cwd
      ("/" ++ chainName 39 ++ "/etc/resolv.conf") = Except.ok (Node.link "/etc/resolv.conf") :=
  ⟨⟨by decide, by decide, by decide⟩, ⟨by decide, by decide⟩, by decide, by decide, by decide,
    by decide⟩

/-! ## C8: what the program changes in the file system -/

section frame
variable {env : Env} {S : Path → Prop}

end frame

/-- During the run none of the four entries becomes a symbolic link. -/
theorem underway_plain {D : Path} {fs fs1 : FS} (h : Underway D fs fs1) (hL : PlainEntries fs D)
    (q : Path) (hq : q ∈ [D ++ ["proc"], D ++ ["sys"], D ++ ["dev"], D ++ ["etc"]]) :
    ∀ t, fs1.get q ≠ some (Node.link t) := by
  intro t ht
  rcases h.1 q hq with h1 | h1
  · rw [h1] at ht
    exact hL q hq t ht
  · rw [h1] at ht
    cases ht

/-- An entry `D/etc/resolv.conf` that is not a symbolic link never dangles. -/
theorem plain_never_dangles {fs : FS} {cwd : Path} {d : String} {m : Nat} {D : Path}
    (hT : NamesTarget fs cwd d m D) (hL : PlainEntries fs D)
    (hP : ∀ t, fs.get (D ++ ["etc", "resolv.conf"]) ≠ some (Node.link t)) :
    NeverDangling fs cwd d D := by
  intro fs1 hU hP1 p hr hg
  have hT1 := hT fs1 hU
  rw [resolve_target true hT1, walk_eq] at hr
  cases hE : fs1.get (D ++ ["etc"]) with
  | none =>
    rw [walkSeg_proper _ _ _ _ _ proper_etc, hE] at hr
    simp at hr
  | some n =>
    cases n with
    | dir =>
      rw [walkSeg_target true hE] at hr
      cases hg1 : fs1.get (D ++ ["etc", "resolv.conf"]) with
      | none =>
        rw [hg1] at hr
        simp only [Except.ok.injEq] at hr
        exact hr.symm
      | some k =>
        rw [hg1] at hr
        cases k with
        | dir =>
          simp only [Except.ok.injEq] at hr
          exact hr.symm
        | file c =>
          simp only [Except.ok.injEq] at hr
          exact hr.symm
        | link t =>
          rw [hP1] at hg1
          exact absurd hg1 (hP t)
    | file c =>
      rw [walkSeg_proper _ _ _ _ _ proper_etc, hE] at hr
      simp at hr
    | link t => exact absurd hE (underway_plain hU hL _ (by simp) t)

/-- When the target's `etc` is a symbolic link to the host's `/etc`, the path
`d/etc/resolv.conf` names the host's file: the program removes it, cannot open it
to copy, and ends the process with status 1: the host has lost its
`/etc/resolv.conf`. -/
theorem frame_needs_plain_etc :
    TargetDir etcLinkFS envOk.cwd "/mnt/x" 40 ["mnt", "x"] ∧
    etcLinkFS.get ["mnt", "x", "etc"] = some (Node.link "/etc") ∧
    etcLinkFS.get ["etc", "resolv.conf"] = some (Node.file [110, 115, 10]) ∧
    (main envOk optsX etcLinkFS).res = Res.exit 1 ∧
    (main envOk optsX etcLinkFS).fs.get ["etc", "resolv.conf"] = none :=
  ⟨⟨by decide, by decide, by decide⟩, by decide, by decide, by decide, by decide⟩

/-- When the target's `dev` is a symbolic link to its `etc`, the bind mount of
`/dev` lands on `/mnt/x/etc`, and `d/etc/resolv.conf` then names what the host
has at `/dev/resolv.conf`: here a dangling link to `/run/resolv.conf`, so that
the program makes the file `/run/resolv.conf`, outside the target root,
although the target had no `etc/resolv.conf` at all.  (On a host without that
link the program would make its own link in what the mount shows at
`/mnt/x/etc`, which is the host's `/dev`.) -/
theorem frame_needs_plain_mount_points :
    TargetDir devLinkFS envBind.cwd "/mnt/x" 40 ["mnt", "x"] ∧
    devLinkFS.get ["mnt", "x", "dev"] = some (Node.link "etc") ∧
    devLinkFS.get ["mnt", "x", "etc"] = some Node.dir ∧
    devLinkFS.get ["mnt", "x", "etc", "resolv.conf"] = none ∧
    devLinkFS.get ["run", "resolv.conf"] = none ∧
    (main envBind optsX devLinkFS).res = Res.ret () ∧
    (main envBind optsX devLinkFS).fs.get ["run", "resolv.conf"] =
      some (Node.file [110, 115, 10]) :=
  ⟨⟨by decide, by decide, by decide⟩, by decide, by decide, by decide, by decide, by decide,
    by decide⟩

end FastChroot
